import Mathlib

set_option autoImplicit false

namespace ObsCli

/-! Shallow embedding of the knowledge-graph core of the repository:
`db_manager.py` (DatabaseManager), `vault_scanner.py` (VaultScanner),
`graph_builder.py` (LinkResolver, GraphBuilder) and
`core/vault_manager.py` (VaultManager).  SQLite tables are modelled as
Lean lists of row structures; SQL timestamps and the JSON encoding of
metadata are not modelled (no claim depends on them). -/

/-- Hash functions used by `DatabaseManager` (`db_manager.py`):
`genId` models `_generate_id` (sha256 hex digest truncated to 16 chars) and
`hashContent` models `_hash_content` (full sha256 hex digest).  Both are pure
functions of their input string; the hash algorithm itself is kept abstract,
which is faithful because the source computes them purely from the argument. -/
structure Hash where
  genId : String → String
  hashContent : String → String

/-- Row of the `vaults` table (columns used by the claims). -/
structure VaultRow where
  id : String
  name : String
  path : String
  deriving Repr, DecidableEq

/-- Row of the `notes` table as written by `DatabaseManager.add_note`. -/
structure NoteRow where
  id : String
  vaultId : String
  path : String
  title : String
  contentHash : String
  wordCount : Nat
  charCount : Nat
  metadata : String
  deriving Repr, DecidableEq

/-- Row of the `links` table as written by `DatabaseManager.add_link` and
updated by `LinkResolver.resolve_all_links`. -/
structure LinkRow where
  id : Nat
  sourceNoteId : String
  targetNoteId : Option String
  targetPath : String
  linkType : String
  linkText : Option String
  deriving Repr, DecidableEq

/-- Row of the `tags` table (`tag` is unique: `add_tag` inserts only when the
tag text is not present, per the `INSERT OR IGNORE` / lookup logic). -/
structure TagRow where
  id : Nat
  tag : String
  deriving Repr, DecidableEq

/-- Row of the `graph_metrics` table (one per note, zero-initialised by
`add_note`, overwritten by `GraphBuilder.calculate_metrics`). -/
structure MetricsRow where
  noteId : String
  pagerank : ℚ
  inDegree : Nat
  outDegree : Nat
  betweenness : ℚ
  closeness : ℚ
  clusteringCoefficient : ℚ
  deriving Repr, DecidableEq

/-- Zero-valued metrics row created by `add_note`'s `INSERT OR IGNORE`. -/
def MetricsRow.init (noteId : String) : MetricsRow :=
  ⟨noteId, 0, 0, 0, 0, 0, 0⟩

/-- Row of the `scan_history` table. -/
structure ScanRow where
  id : Nat
  vaultId : String
  status : String
  notesScanned : Nat
  notesAdded : Nat
  notesUpdated : Nat
  notesDeleted : Nat
  errorMessage : Option String
  deriving Repr, DecidableEq

/-- The persistent store: one list per SQLite table, plus the autoincrement
counters for the tables with integer primary keys. -/
structure DB where
  vaults : List VaultRow
  notes : List NoteRow
  graphMetrics : List MetricsRow
  links : List LinkRow
  nextLinkId : Nat
  tags : List TagRow
  nextTagId : Nat
  noteTags : List (String × Nat)
  scans : List ScanRow
  nextScanId : Nat
  deriving Repr, DecidableEq

/-- A freshly initialised database. -/
def DB.empty : DB := ⟨[], [], [], [], 1, [], 1, [], [], 1⟩

/-- Model of SQLite `INSERT OR REPLACE` on the `vaults` table, keyed on the
primary key `id`. -/
def upsertVaultRow (r : VaultRow) (l : List VaultRow) : List VaultRow :=
  if l.any (fun x => x.id == r.id) then l.map (fun x => if x.id == r.id then r else x)
  else l ++ [r]

/-- Model of SQLite `INSERT OR REPLACE` on the `notes` table, keyed on `id`. -/
def upsertNoteRow (r : NoteRow) (l : List NoteRow) : List NoteRow :=
  if l.any (fun x => x.id == r.id) then l.map (fun x => if x.id == r.id then r else x)
  else l ++ [r]

/-- `DatabaseManager.add_vault`: vault id is the stable hash of the vault
path; the row is upserted (`INSERT OR REPLACE`). -/
def add_vault (h : Hash) (name path : String) (db : DB) : String × DB :=
  let vaultId := h.genId path
  (vaultId, { db with vaults := upsertVaultRow { id := vaultId, name := name, path := path } db.vaults })

/-- The whitespace set of Python `str.split()` and `str.strip()`, i.e. the
code points on which `str.isspace()` holds: the ASCII range 9–13 and 28–32
plus U+0085, U+00A0, U+1680, U+2000–U+200A, U+2028, U+2029, U+202F, U+205F
and U+3000. -/
def isPyWs (c : Char) : Bool :=
  let n := c.toNat
  (9 ≤ n && n ≤ 13) || (28 ≤ n && n ≤ 32) || n == 133 || n == 160 || n == 5760 ||
  (8192 ≤ n && n ≤ 8202) || n == 8232 || n == 8233 || n == 8239 || n == 8287 || n == 12288

/-- Split a character list at every character satisfying `p` (keeping empty
chunks, as Python `str.split(sep)` and `str.split()` before filtering). -/
def splitOnPred (p : Char → Bool) (cs : List Char) : List (List Char) :=
  cs.foldr (fun c acc =>
    if p c then [] :: acc
    else match acc with
      | w :: ws => (c :: w) :: ws
      | [] => [[c]]) [[]]

/-- Python `len(content.split())`: count maximal whitespace-separated words. -/
def pyWordCount (s : String) : Nat :=
  ((splitOnPred isPyWs s.data).filter (fun w => w ≠ [])).length

/-- `DatabaseManager.add_note`: note id is the stable hash of
`"{vault_id}:{path}"`; the note row is upserted (`INSERT OR REPLACE`) and a
zero-valued `graph_metrics` row is created if absent (`INSERT OR IGNORE`). -/
def add_note (h : Hash) (vaultId path title content metadata : String) (db : DB) : String × DB :=
  let noteId := h.genId (vaultId ++ ":" ++ path)
  let row : NoteRow :=
    { id := noteId, vaultId := vaultId, path := path, title := title,
      contentHash := h.hashContent content, wordCount := pyWordCount content,
      charCount := content.length, metadata := metadata }
  let gm := if db.graphMetrics.any (fun m => m.noteId == noteId) then db.graphMetrics
            else db.graphMetrics ++ [MetricsRow.init noteId]
  (noteId, { db with notes := upsertNoteRow row db.notes, graphMetrics := gm })

/-- `DatabaseManager.get_note`. -/
def get_note (db : DB) (noteId : String) : Option NoteRow :=
  db.notes.find? (fun x => x.id == noteId)

/-- `DatabaseManager.get_note_by_path`: recomputes the id hash and looks the
note up by id. -/
def get_note_by_path (h : Hash) (db : DB) (vaultId path : String) : Option NoteRow :=
  get_note db (h.genId (vaultId ++ ":" ++ path))

/-- `DatabaseManager.add_link`: a plain `INSERT` into `links` with a fresh
autoincrement id; `target_note_id` starts as NULL and `link_type` as
`'internal'` (provisional, fixed up later by the resolver). -/
def add_link (db : DB) (sourceNoteId targetPath : String) (linkText : Option String) : Nat × DB :=
  let row : LinkRow :=
    { id := db.nextLinkId, sourceNoteId := sourceNoteId, targetNoteId := none,
      targetPath := targetPath, linkType := "internal", linkText := linkText }
  (db.nextLinkId, { db with links := db.links ++ [row], nextLinkId := db.nextLinkId + 1 })

/-- `DatabaseManager.add_tag`: insert the tag if its text is not present,
otherwise return the id of the existing row. -/
def add_tag (db : DB) (tag : String) : Nat × DB :=
  match db.tags.find? (fun t => t.tag == tag) with
  | some t => (t.id, db)
  | none =>
    (db.nextTagId,
     { db with
       tags := db.tags ++ [⟨db.nextTagId, tag⟩],
       nextTagId := db.nextTagId + 1 })

/-- `DatabaseManager.add_note_tag`: find-or-create the tag, then
`INSERT OR IGNORE` the `(note_id, tag_id)` association. -/
def add_note_tag (db : DB) (noteId tag : String) : DB :=
  let p := add_tag db tag
  let db := p.2
  if (noteId, p.1) ∈ db.noteTags then db
  else { db with noteTags := db.noteTags ++ [(noteId, p.1)] }

/-- `DatabaseManager.start_scan`: append a `scan_history` row with status
`'running'`. -/
def start_scan (db : DB) (vaultId : String) : Nat × DB :=
  let row : ScanRow :=
    { id := db.nextScanId, vaultId := vaultId, status := "running",
      notesScanned := 0, notesAdded := 0, notesUpdated := 0, notesDeleted := 0,
      errorMessage := none }
  (db.nextScanId, { db with scans := db.scans ++ [row], nextScanId := db.nextScanId + 1 })

/-- `DatabaseManager.complete_scan`: update the scan row in place to status
`'completed'` with the final counters. -/
def complete_scan (db : DB) (scanId notesScanned notesAdded notesUpdated notesDeleted : Nat) : DB :=
  { db with scans := db.scans.map (fun s =>
      if s.id == scanId then
        { s with
          status := "completed", notesScanned := notesScanned,
          notesAdded := notesAdded, notesUpdated := notesUpdated,
          notesDeleted := notesDeleted }
      else s) }

/-- Lexicographic comparison of character lists by code point, modelling
SQLite's byte-wise text ordering on ASCII titles. -/
def charListLe : List Char → List Char → Bool
  | [], _ => true
  | _ :: _, [] => false
  | a :: as, b :: bs => if a == b then charListLe as bs else decide (a.toNat < b.toNat)

/-- Insertion step for sorting notes by title (SQL `ORDER BY title`). -/
def insertByTitle (n : NoteRow) : List NoteRow → List NoteRow
  | [] => [n]
  | m :: ms => if charListLe n.title.data m.title.data then n :: m :: ms else m :: insertByTitle n ms

/-- Insertion sort by title, modelling SQL `ORDER BY title`. -/
def sortByTitle : List NoteRow → List NoteRow
  | [] => []
  | n :: ns => insertByTitle n (sortByTitle ns)

/-- `DatabaseManager.list_notes` filtered by vault:
`SELECT * FROM notes WHERE vault_id = ? ORDER BY title`.  Note that the
source's signature accepts no limit or offset parameter. -/
def list_notes (db : DB) (vaultId : String) : List NoteRow :=
  sortByTitle (db.notes.filter (fun n => n.vaultId == vaultId))

/-- Data extracted from one markdown file by `MarkdownParser.parse_file`
(`vault_scanner.py`): the `NoteData` fields consumed by
`VaultScanner.scan_vault`.  The parser is a pure function of file content and
file metadata, so "files unchanged between two runs" means the same
`FileData`.  The `metadata` string stands for the JSON-encoded front matter
(including the `created_at` and `modified_at` entries the scanner adds). -/
structure FileData where
  relPath : String
  title : String
  content : String
  metadata : String
  tags : List String
  wikilinks : List (String × Option String)
  deriving Repr, DecidableEq

/-- One file encountered by the scan loop: either it parses (and all of its
writes succeed), or parsing or a write raises.  `scan_vault` wraps each file
in `try ... except Exception: continue`, so a failing file is modelled as a
unit that the loop skips. -/
inductive FileEntry where
  | ok (d : FileData)
  | failed
  deriving Repr, DecidableEq

/-- Whether a file entry parses successfully. -/
def FileEntry.isOk : FileEntry → Bool
  | .ok _ => true
  | .failed => false

/-- The statistics dictionary built by `VaultScanner.scan_vault`.  Its keys
are exactly `notes_scanned`, `notes_added`, `notes_updated`, `links_added`
and `tags_added`; the source defines no error list or error counter. -/
structure ScanStats where
  notesScanned : Nat
  notesAdded : Nat
  notesUpdated : Nat
  linksAdded : Nat
  tagsAdded : Nat
  deriving Repr, DecidableEq

/-- The initial statistics dictionary. -/
def ScanStats.zero : ScanStats := ⟨0, 0, 0, 0, 0⟩

/-- Body of the per-file loop of `VaultScanner.scan_vault`: look up the note
by path, upsert it, update the counters, then add each tag association and
insert each wikilink as a provisional link row.  A failing file (the
`except Exception: continue` branch) leaves statistics and store untouched. -/
def process_file (h : Hash) (vaultId : String) (acc : ScanStats × DB) : FileEntry → ScanStats × DB
  | .failed => acc
  | .ok d =>
    let stats := acc.1
    let existing := get_note_by_path h acc.2 vaultId d.relPath
    let p := add_note h vaultId d.relPath d.title d.content d.metadata acc.2
    let noteId := p.1
    let stats := if existing.isSome
      then { stats with notesUpdated := stats.notesUpdated + 1 }
      else { stats with notesAdded := stats.notesAdded + 1 }
    let stats := { stats with notesScanned := stats.notesScanned + 1 }
    let db := d.tags.foldl (fun db t => add_note_tag db noteId t) p.2
    let stats := { stats with tagsAdded := stats.tagsAdded + d.tags.length }
    let db := d.wikilinks.foldl (fun db tw => (add_link db noteId tw.1 tw.2).2) db
    let stats := { stats with linksAdded := stats.linksAdded + d.wikilinks.length }
    (stats, db)

/-- `VaultScanner.scan_vault` on a valid vault path: upsert the vault row,
open a scan record, process every discovered file in order, then mark the
scan completed.  Batching, the progress callback and the event-loop yield
(`asyncio.sleep`) do not touch the store or statistics and are not modelled;
`update_vault_scan_time` only touches the unmodelled timestamp column. -/
def scan_vault (h : Hash) (vaultPath vaultName : String) (files : List FileEntry) (db : DB) : ScanStats × DB :=
  let v := add_vault h vaultName vaultPath db
  let s := start_scan v.2 v.1
  let r := files.foldl (process_file h v.1) (ScanStats.zero, s.2)
  (r.1, complete_scan r.2 s.1 r.1.notesScanned r.1.notesAdded r.1.notesUpdated 0)

/-- Outcome of one file in the scan loop's `try` block, at the granularity
of the store calls the block makes (`add_note`, then one `add_note_tag` per
tag, then one `add_link` per wikilink).  `parsed` is the exception-free
path; `parseFailed` covers an exception raised before the first store call
completed (`parse_file`, the `get_note_by_path` read, or `add_note` itself,
whose two inserts share one rolled-back transaction); `writeFailed d k`
covers an exception raised after `k` store calls completed — the committed
calls and their statistics increments persist.  The failing call itself is
modelled as leaving no committed write: exact for `add_note` and
`add_link`, which are single transactions, and an abstraction for
`add_note_tag`, whose find-or-create step may have committed a tag row
before the association insert failed. -/
inductive FileOutcome where
  | parsed (d : FileData)
  | parseFailed
  | writeFailed (d : FileData) (k : Nat)
  deriving Repr, DecidableEq

/-- The payload actually written for a file whose processing raised after
`k` completed store calls: the note itself (call 1), the first `k - 1`
tags, and — once the tags are exhausted — the first `k - 1 - tags.length`
wikilinks. -/
def truncateAt (d : FileData) (k : Nat) : FileData :=
  { d with
    tags := d.tags.take (k - 1),
    wikilinks := d.wikilinks.take (k - 1 - d.tags.length) }

/-- The per-file loop body of `VaultScanner.scan_vault` interrupted by an
exception after `k` completed store calls, statement by statement: for
`k = 0` nothing is written and no statistic counted; otherwise the note is
upserted and counted, then each completed tag call and each completed link
call is applied with its statistics increment, exactly as in the source's
`try` block up to the raise. -/
def process_file_interrupted (h : Hash) (vaultId : String) (acc : ScanStats × DB)
    (d : FileData) (k : Nat) : ScanStats × DB :=
  if k = 0 then acc
  else
    let stats := acc.1
    let existing := get_note_by_path h acc.2 vaultId d.relPath
    let p := add_note h vaultId d.relPath d.title d.content d.metadata acc.2
    let noteId := p.1
    let stats := if existing.isSome
      then { stats with notesUpdated := stats.notesUpdated + 1 }
      else { stats with notesAdded := stats.notesAdded + 1 }
    let stats := { stats with notesScanned := stats.notesScanned + 1 }
    let doneTags := d.tags.take (k - 1)
    let db := doneTags.foldl (fun db t => add_note_tag db noteId t) p.2
    let stats := { stats with tagsAdded := stats.tagsAdded + doneTags.length }
    let doneLinks := d.wikilinks.take (k - 1 - d.tags.length)
    let db := doneLinks.foldl (fun db tw => (add_link db noteId tw.1 tw.2).2) db
    let stats := { stats with linksAdded := stats.linksAdded + doneLinks.length }
    (stats, db)

/-- The residue of a file outcome as a plain scan entry: a parsed file is
itself, a file that failed before its first write leaves nothing, an
interrupted file leaves its truncated payload. -/
def FileOutcome.residue : FileOutcome → FileEntry
  | .parsed d => .ok d
  | .parseFailed => .failed
  | .writeFailed d k => if k = 0 then .failed else .ok (truncateAt d k)

/-- One step of the scan loop at outcome granularity. -/
def process_outcome (h : Hash) (vaultId : String) (acc : ScanStats × DB) :
    FileOutcome → ScanStats × DB
  | .parsed d => process_file h vaultId acc (.ok d)
  | .parseFailed => acc
  | .writeFailed d k => process_file_interrupted h vaultId acc d k

/-- `VaultScanner.scan_vault` with the per-file `try` block modelled at
store-call granularity (see `FileOutcome`): same vault upsert, scan record,
file fold and completion as `scan_vault`, with each file contributing the
writes and statistics it completed before its exception, if any. -/
def scan_vault_outcomes (h : Hash) (vaultPath vaultName : String) (files : List FileOutcome)
    (db : DB) : ScanStats × DB :=
  let v := add_vault h vaultName vaultPath db
  let s := start_scan v.2 v.1
  let r := files.foldl (process_outcome h v.1) (ScanStats.zero, s.2)
  (r.1, complete_scan r.2 s.1 r.1.notesScanned r.1.notesAdded r.1.notesUpdated 0)

/-- Filesystem facts about the path handed to `VaultManager.scan_vault`,
as observed by its precondition checks, together with the markdown files
that discovery would yield there. -/
structure FSView where
  pathExists : Bool
  isDirectory : Bool
  hasObsidianDir : Bool
  files : List FileEntry
  deriving Repr, DecidableEq

/-- Errors raised by `VaultManager` (`core/exceptions.py`):
`VaultNotFoundError` and `ScanError`. -/
inductive VMError where
  | vaultNotFound (msg : String)
  | scanFail (msg : String)
  deriving Repr, DecidableEq

/-- The slash-separated components of a path string. -/
def pathParts (p : String) : List String :=
  (splitOnPred (fun c => c == '/') p.data).map String.mk

/-- Python `Path(p).name`: the last nonempty path component. -/
def lastComponent (p : String) : String :=
  (((pathParts p).filter (fun s => s ≠ "")).getLast?).getD ""

/-- `VaultManager.scan_vault` (`core/vault_manager.py`): raise
`VaultNotFoundError` if the path does not exist or is not a directory, then
raise `VaultNotFoundError` if the `.obsidian` marker directory is missing;
only after both checks pass does it invoke `VaultScanner.scan_vault`, which
performs every store write.  The returned `ScanResult` is represented by the
scanner statistics together with the updated store. -/
def vm_scan_vault (h : Hash) (fs : FSView) (vaultPath : String) (vaultName : Option String)
    (db : DB) : Except VMError (ScanStats × DB) :=
  if ¬ fs.pathExists ∨ ¬ fs.isDirectory then
    .error (.vaultNotFound "Invalid vault path")
  else if ¬ fs.hasObsidianDir then
    .error (.vaultNotFound "Not a valid Obsidian vault")
  else
    .ok (scan_vault h vaultPath (vaultName.getD (lastComponent vaultPath)) fs.files db)

/-- Worker for `stripAnchor`.  Without `re.MULTILINE`, `$` matches only at
the end of the string or just before a final trailing newline, and `.` does
not match a newline; so `[#^].*$` matches at a `#`/`^` exactly when the
rest of the string after it contains no newline other than one final
trailing newline.  `re.sub` removes from the first such `#`/`^` to the end
of the string, keeping a final trailing newline (`$` is zero-width); a
`#`/`^` that is followed by an interior newline is left in place and
scanning continues after it. -/
def stripAnchorAux : List Char → List Char
  | [] => []
  | c :: rest =>
    if (c == '#' || c == '^') && !(rest.dropLast.contains '\n') then
      match rest.getLast? with
      | some '\n' => ['\n']
      | _ => []
    else c :: stripAnchorAux rest

/-- Anchor stripping in `LinkResolver.resolve_link`:
`re.sub(r'[#^].*$', '', target_path)` with default (non-MULTILINE,
non-DOTALL) semantics.  On newline-free text this deletes everything from
the first `#` or `^` onward; on text where every `#`/`^` is followed by an
interior newline it deletes nothing. -/
def stripAnchor (s : String) : String :=
  String.mk (stripAnchorAux s.data)

/-- Python `str.strip()`: trim whitespace from both ends. -/
def pyStrip (s : String) : String :=
  String.mk (((s.data.dropWhile isPyWs).reverse.dropWhile isPyWs).reverse)

/-- Whether `s` ends with the suffix `suff` (Python `str.endswith`). -/
def strEndsWith (s suff : String) : Bool :=
  s.data.reverse.take suff.data.length == suff.data.reverse

/-- Python slicing `s[:-n]`: drop the last `n` characters. -/
def strDropRight (s : String) (n : Nat) : String :=
  String.mk (s.data.take (s.data.length - n))

/-- Fuel-indexed worker for `removeMd` (structural recursion on the fuel so
that the definition evaluates inside the kernel). -/
def removeMdAux : Nat → List Char → List Char
  | 0, _ => []
  | _, [] => []
  | fuel + 1, c :: rest =>
    if c == '.' ∧ rest.take 2 = ['m', 'd'] then removeMdAux fuel (rest.drop 2)
    else c :: removeMdAux fuel rest

/-- Python `str.replace('.md', '')`: remove every (non-overlapping,
leftmost-first) occurrence of `.md`, as used by `build_note_cache` on the
note path. -/
def removeMd (cs : List Char) : List Char :=
  removeMdAux cs.length cs

/-- Python `pathlib` stem of a file name: drop the suffix starting at the
last `.` provided that dot is neither the first nor the last character. -/
def pyStem (name : String) : String :=
  let cs := name.toList
  let rfindDot := (List.range cs.length).foldl
    (fun acc i => if cs.get? i = some '.' then some i else acc) none
  match rfindDot with
  | some i => if 0 < i ∧ i + 1 < cs.length then String.mk (cs.take i) else name
  | none => name

/-- `Path(path).stem`: stem of the last path component. -/
def pathStem (p : String) : String := pyStem (lastComponent p)

/-- Join path components with `/`. -/
def joinParts (ps : List String) : String :=
  match ps with
  | [] => ""
  | p :: rest => rest.foldl (fun acc q => acc ++ "/" ++ q) p

/-- `str(Path(path).parent)` for the relative note paths stored by the
scanner: all components but the last, or `"."` when none remain. -/
def pyParent (p : String) : String :=
  let parts := (pathParts p).filter (fun s => s ≠ "")
  match parts.dropLast with
  | [] => "."
  | ps => joinParts ps

/-- Leading-slash test (Python absolute-path check in `pathlib`). -/
def startsWithSlash (s : String) : Bool :=
  match s.data with
  | [] => false
  | c :: _ => c == '/'

/-- `str(Path(dir) / target)`: pathlib drops empty and `.` components and
lets an absolute right operand replace the left one. -/
def pyJoin (dir target : String) : String :=
  let tparts := (pathParts target).filter (fun s => s ≠ "" ∧ s ≠ ".")
  if startsWithSlash target then "/" ++ joinParts tparts
  else
    let dparts := (pathParts dir).filter (fun s => s ≠ "" ∧ s ≠ ".")
    match dparts ++ tparts with
    | [] => "."
    | ps => joinParts ps

/-- Write to the resolver's note cache, a Python dict: replace the value of
an existing key in place, otherwise append the new entry. -/
def cacheInsert (k v : String) (c : List (String × String)) : List (String × String) :=
  if c.any (fun p => p.1 == k) then c.map (fun p => if p.1 == k then (k, v) else p)
  else c ++ [(k, v)]

/-- Dict lookup in the note cache. -/
def cacheFind (c : List (String × String)) (k : String) : Option String :=
  (c.find? (fun p => p.1 == k)).map (fun p => p.2)

/-- `LinkResolver.build_note_cache`: for each note of the vault (in
`list_notes` order) record its path with `.md` removed (`str.replace`
removes every occurrence), its title, and — only when the key is still
free — its bare filename. -/
def build_note_cache (db : DB) (vaultId : String) : List (String × String) :=
  (list_notes db vaultId).foldl (fun c n =>
    let c := cacheInsert (String.mk (removeMd n.path.data)) n.id c
    let c := cacheInsert n.title n.id c
    let filename := pathStem n.path
    if c.any (fun p => p.1 == filename) then c else c ++ [(filename, n.id)]) []

/-- `LinkResolver.resolve_link`: strip any trailing anchor and whitespace,
try the cache key as written, then (only when the text ends in `.md`) retry
with the suffix removed, then try the text joined to the source note's
directory; `none` means a broken link. -/
def resolve_link (cache : List (String × String)) (sourcePath targetRaw : String) : Option String :=
  let t := pyStrip (stripAnchor targetRaw)
  match cacheFind cache t with
  | some nid => some nid
  | none =>
    match (if strEndsWith t ".md" then cacheFind cache (strDropRight t 3) else none) with
    | some nid => some nid
    | none =>
      let t2 := if strEndsWith t ".md" then strDropRight t 3 else t
      cacheFind cache (pyJoin (pyParent sourcePath) t2)

/-- Modelled from the spec: the anchor strip exactly as the spec and the
claim word it — "strip any trailing heading/block anchor (`#...`, `^...`)
from the raw target text", i.e. delete the substring from the first `#` or
`^` onward. -/
def stripAnchorClaim (s : String) : String :=
  String.mk (s.data.takeWhile (fun c => !(c == '#' || c == '^')))

/-- Modelled from the spec's words, for comparison with `resolve_link`: the
per-reference resolution order "(1) strip any trailing heading/block anchor
(the substring from the first `#` or `^` onward) from the raw target text;
(2) exact match against the lookup table; (3) match after stripping a
literal `.md` suffix; (4) match by resolving the text as a path relative to
the source note's directory; (5) otherwise mark broken", first match wins. -/
def resolveLinkSpec (cache : List (String × String)) (sourcePath targetRaw : String) : Option String :=
  let t := pyStrip (stripAnchorClaim targetRaw)
  let noMd := if strEndsWith t ".md" then strDropRight t 3 else t
  ((cacheFind cache t).orElse (fun _ => cacheFind cache noMd)).orElse
    (fun _ => cacheFind cache (pyJoin (pyParent sourcePath) noMd))

/-- The amended resolution chain: the spec's five-step first-match order,
with step (1) taken to be the code's actual anchor strip
(`re.sub(r'[#^].*$', '', ...)` without MULTILINE, see `stripAnchor`) rather
than the claimed strip-from-the-first-anchor. -/
def resolveLinkOrder (cache : List (String × String)) (sourcePath targetRaw : String) : Option String :=
  let t := pyStrip (stripAnchor targetRaw)
  let noMd := if strEndsWith t ".md" then strDropRight t 3 else t
  ((cacheFind cache t).orElse (fun _ => cacheFind cache noMd)).orElse
    (fun _ => cacheFind cache (pyJoin (pyParent sourcePath) noMd))

/-- The per-link database update of `LinkResolver.resolve_all_links`: a
resolved target sets `target_note_id` and `link_type = 'internal'`, an
unresolved one sets `link_type = 'broken'`. -/
def applyResolution (cache : List (String × String)) (n : NoteRow) (l : LinkRow) : LinkRow :=
  match resolve_link cache n.path l.targetPath with
  | some nid => { l with targetNoteId := some nid, linkType := "internal" }
  | none => { l with linkType := "broken" }

/-- `LinkResolver.resolve_all_links`: build the note cache once, then for
each note of the vault update each of its outgoing links in place.  The
returned progress counters are not modelled. -/
def resolve_all_links (db : DB) (vaultId : String) : DB :=
  let cache := build_note_cache db vaultId
  { db with
    links := (list_notes db vaultId).foldl
      (fun ls n => ls.map (fun l => if l.sourceNoteId == n.id then applyResolution cache n l else l))
      db.links }

/-- The in-memory `networkx.DiGraph` built by `GraphBuilder.build_graph`:
node list in insertion order without duplicates, directed edge list without
duplicates (parallel edges collapse, as in `networkx`). -/
structure DiGraph where
  nodes : List String
  edges : List (String × String)
  deriving Repr, DecidableEq

/-- `DiGraph.add_node`: a repeated node is a no-op. -/
def DiGraph.addNode (g : DiGraph) (n : String) : DiGraph :=
  if n ∈ g.nodes then g else { g with nodes := g.nodes ++ [n] }

/-- `DiGraph.add_edge`: missing endpoints are added as nodes, a repeated
edge is a no-op (a `networkx.DiGraph` is a simple directed graph that
permits self-loops). -/
def DiGraph.addEdge (g : DiGraph) (u v : String) : DiGraph :=
  if (u, v) ∈ ((g.addNode u).addNode v).edges then (g.addNode u).addNode v
  else { (g.addNode u).addNode v with edges := ((g.addNode u).addNode v).edges ++ [(u, v)] }

/-- The qualifying rows of the edge query in `GraphBuilder.build_graph`:
`SELECT source_note_id, target_note_id FROM links WHERE link_type =
'internal' AND target_note_id IS NOT NULL` — the query is over the whole
`links` table, with no vault filter. -/
def internalLinks (db : DB) : List LinkRow :=
  db.links.filter (fun l => l.linkType == "internal" && l.targetNoteId.isSome)

/-- `GraphBuilder.build_graph`: one `add_node` per note of the vault, then
one `add_edge` per qualifying link row of the whole table. -/
def build_graph (db : DB) (vaultId : String) : DiGraph :=
  let g := (list_notes db vaultId).foldl (fun g n => g.addNode n.id) ⟨[], []⟩
  (internalLinks db).foldl (fun g l =>
    match l.targetNoteId with
    | some t => g.addEdge l.sourceNoteId t
    | none => g) g

/-- In-degree of a node of the built graph (`networkx` counts one per
incoming edge, self-loops included). -/
def DiGraph.inDeg (g : DiGraph) (n : String) : Nat :=
  (g.edges.filter (fun e => e.2 == n)).length

/-- Out-degree of a node of the built graph. -/
def DiGraph.outDeg (g : DiGraph) (n : String) : Nat :=
  (g.edges.filter (fun e => e.1 == n)).length

/-- `networkx.density`: `0` when there are no edges or at most one node,
otherwise `m / (n * (n - 1))` for a directed graph. -/
def nxDensity (n m : Nat) : ℚ :=
  if m = 0 ∨ n ≤ 1 then 0 else (m : ℚ) / ((n : ℚ) * ((n : ℚ) - 1))

/-- Outcome of one library-delegated graph algorithm: either a per-node
score map, or the internal exception it raised (non-convergence and the
like).  `calculate_metrics` wraps each call in `try ... except`. -/
abbrev AlgoResult := Except String (String → ℚ)

/-- The four algorithm invocations of `GraphBuilder.calculate_metrics`:
`nx.pagerank`, `nx.betweenness_centrality`, `nx.closeness_centrality` and
`nx.clustering` on the undirected projection. -/
structure AlgoOutcomes where
  pagerank : AlgoResult
  betweenness : AlgoResult
  closeness : AlgoResult
  clustering : AlgoResult

/-- The `except` branch of each algorithm call: on failure every node's
score becomes `0.0`. -/
def fallbackZero (o : AlgoResult) : String → ℚ :=
  match o with
  | .ok f => f
  | .error _ => fun _ => 0

/-- The dictionary returned by `calculate_metrics`: `{'notes': 0}` for an
empty graph, otherwise notes, edges and density. -/
inductive MetricsResult where
  | empty
  | stats (notes edges : Nat) (density : ℚ)
  deriving Repr, DecidableEq

/-- The density entry of the returned dictionary, when present. -/
def MetricsResult.densityVal : MetricsResult → Option ℚ
  | .empty => none
  | .stats _ _ d => some d

/-- The SQL `UPDATE graph_metrics ... WHERE note_id = ?` of
`calculate_metrics`: rewrite the row of one node in place (a no-op when the
row is absent, as for SQL `UPDATE`). -/
def updateMetricsRow (gm : List MetricsRow) (nid : String) (pr bw cl cc : ℚ)
    (ind outd : Nat) : List MetricsRow :=
  gm.map (fun r =>
    if r.noteId == nid then
      { r with
        pagerank := pr, inDegree := ind, outDegree := outd,
        betweenness := bw, closeness := cl, clusteringCoefficient := cc }
    else r)

/-- `GraphBuilder.calculate_metrics`: build the graph; an empty graph short
circuits to `{'notes': 0}` with no store write; otherwise compute the four
per-node metrics with the fallback-to-zero policy applied independently to
each, overwrite every graph node's `graph_metrics` row, and return the
notes/edges/density statistics.  The function is total: no algorithm
failure escapes to the caller. -/
def calculate_metrics (db : DB) (vaultId : String) (alg : AlgoOutcomes) : MetricsResult × DB :=
  let g := build_graph db vaultId
  if g.nodes.length = 0 then (.empty, db)
  else
    let pr := fallbackZero alg.pagerank
    let bw := fallbackZero alg.betweenness
    let cl := fallbackZero alg.closeness
    let cc := fallbackZero alg.clustering
    let gm := g.nodes.foldl
      (fun gm n => updateMetricsRow gm n (pr n) (bw n) (cl n) (cc n) (g.inDeg n) (g.outDeg n))
      db.graphMetrics
    (.stats g.nodes.length g.edges.length (nxDensity g.nodes.length g.edges.length),
     { db with graphMetrics := gm })

/-- Python `part.startswith('.')`: the component's first character is a
dot (false for the empty string). -/
def startsWithDot (s : String) : Bool :=
  match s.toList with
  | [] => false
  | c :: _ => c == '.'

/-- The hidden-component test of the discovery filter in
`VaultScanner.scan_vault`: `any(part.startswith('.') for part in p.parts)`,
where `p` is the absolute path of the candidate file. -/
def hasHiddenPart (parts : List String) : Bool :=
  parts.any startsWithDot

/-- The markdown discovery of `VaultScanner.scan_vault`: `vault_path` is
resolved to an absolute path, `rglob('*.md')` yields the vault components
followed by each file's vault-relative components, and a file is kept only
when no component of that full absolute path begins with `.`. -/
def discovered_md_files (vaultParts : List String) (relFiles : List (List String)) : List (List String) :=
  relFiles.filter (fun rel => !(hasHiddenPart (vaultParts ++ rel)))

/-- Parameters of `DatabaseManager.list_notes` as declared in
`db_manager.py`: `def list_notes(self, vault_id=None)` — the signature
admits no keyword besides `vault_id`. -/
def list_notes_params : List String := ["vault_id"]

/-- Keyword arguments the repository itself passes to
`DatabaseManager.list_notes`: the pagination test
(`tests/test_db_pagination.py` calls `db.list_notes(vault_id, limit=2,
offset=2)`) and `VaultManager.get_notes` (`core/vault_manager.py` calls
`self.db.list_notes(vault_id, limit=limit, offset=offset)`). -/
def list_notes_call_args : List String := ["vault_id", "limit", "offset"]

/-! Claim theorems. -/

/-- C7: Note identity is deterministic.  Ingesting the same
`(vaultPath, relativePath)` pair twice — with any display name, title,
content, metadata and starting store — yields the same note id both times,
namely the stable hash of `(vault_id, relative_path)` where the vault id is
the stable hash of the vault path (`DatabaseManager._generate_id`,
`add_vault`, `add_note`). -/
theorem note_id_deterministic (h : Hash) (vaultPath relPath : String)
    (name1 name2 title1 title2 c1 c2 m1 m2 : String) (db1 db2 : DB) :
    (add_note h (add_vault h name1 vaultPath db1).1 relPath title1 c1 m1
        (add_vault h name1 vaultPath db1).2).1
      = (add_note h (add_vault h name2 vaultPath db2).1 relPath title2 c2 m2
        (add_vault h name2 vaultPath db2).2).1
    ∧ (add_note h (add_vault h name1 vaultPath db1).1 relPath title1 c1 m1
        (add_vault h name1 vaultPath db1).2).1
      = h.genId (h.genId vaultPath ++ ":" ++ relPath) :=
  ⟨rfl, rfl⟩

/-- C3: When the target path does not exist, is not a directory, or lacks
the `.obsidian` marker subdirectory, `VaultManager.scan_vault` fails with a
vault-not-found error.  The precondition checks precede the call into
`VaultScanner.scan_vault`, which performs every store write, so on this
error path no value of type `ScanStats × DB` is produced at all: no vault
row and no scan-history row is created. -/
theorem scan_invalid_vault_rejected (h : Hash) (fs : FSView) (vaultPath : String)
    (vaultName : Option String) (db : DB)
    (hbad : fs.pathExists = false ∨ fs.isDirectory = false ∨ fs.hasObsidianDir = false) :
    ∃ msg, vm_scan_vault h fs vaultPath vaultName db = .error (.vaultNotFound msg) := by
  unfold vm_scan_vault
  by_cases h1 : (¬ fs.pathExists ∨ ¬ fs.isDirectory)
  · exact ⟨"Invalid vault path", by rw [if_pos h1]⟩
  · have h2 : fs.hasObsidianDir = false := by
      rcases hbad with hb | hb | hb
      · exact absurd (Or.inl (by simp [hb])) h1
      · exact absurd (Or.inr (by simp [hb])) h1
      · exact hb
    exact ⟨"Not a valid Obsidian vault", by rw [if_neg h1, if_pos (by simp [h2])]⟩

/-- C3 witness: a concrete path that exists and is a directory but has no
`.obsidian` subdirectory is rejected with a vault-not-found error. -/
theorem scan_invalid_vault_rejected_witness :
    (FSView.hasObsidianDir ⟨true, true, false, []⟩ = false) ∧
    ∃ msg, vm_scan_vault ⟨fun s => s, fun s => s⟩ ⟨true, true, false, []⟩ "/v" none DB.empty
      = .error (.vaultNotFound msg) :=
  ⟨rfl, scan_invalid_vault_rejected ⟨fun s => s, fun s => s⟩ ⟨true, true, false, []⟩ "/v" none
    DB.empty (Or.inr (Or.inr rfl))⟩

/-- C10: File discovery filters dot-components over the absolute path: a
candidate file is kept iff no component of its full absolute path (vault
components followed by vault-relative components) begins with `.`; hence a
vault whose own absolute path contains a hidden component yields zero
discovered files. -/
theorem discovery_filters_absolute_path (vaultParts : List String) (relFiles : List (List String)) :
    (∀ rel, rel ∈ discovered_md_files vaultParts relFiles ↔
       rel ∈ relFiles ∧ hasHiddenPart (vaultParts ++ rel) = false) ∧
    (hasHiddenPart vaultParts = true → discovered_md_files vaultParts relFiles = []) := by
  constructor
  · intro rel
    simp [discovered_md_files, List.mem_filter]
  · intro hv
    unfold discovered_md_files
    refine List.filter_eq_nil_iff.mpr ?_
    intro rel _
    have : hasHiddenPart (vaultParts ++ rel) = true := by
      unfold hasHiddenPart at hv ⊢
      simp only [List.any_append, hv, Bool.true_or]
    simp [this]

/-- C10 witness: a vault located inside a hidden directory discovers no
files, even though the file's vault-relative path has no hidden component. -/
theorem discovery_filters_absolute_path_witness :
    hasHiddenPart [".hidden", "vault"] = true ∧
    discovered_md_files [".hidden", "vault"] [["notes", "a.md"]] = [] :=
  ⟨by decide, (discovery_filters_absolute_path [".hidden", "vault"] [["notes", "a.md"]]).2
    (by decide)⟩

/-- C9 (code bug): the signature of `DatabaseManager.list_notes` accepts no
`limit` or `offset` keyword, although the repository's own pagination test
and its caller `VaultManager.get_notes` pass exactly those keywords (so the
calls raise `TypeError`); the function itself always returns every note row
of the vault, never a truncated page. -/
theorem list_notes_lacks_pagination (db : DB) (v : String) :
    ("limit" ∈ list_notes_call_args ∧ "limit" ∉ list_notes_params) ∧
    ("offset" ∈ list_notes_call_args ∧ "offset" ∉ list_notes_params) ∧
    (list_notes db v).length = (db.notes.filter (fun n => n.vaultId == v)).length := by
  refine ⟨⟨by decide, by decide⟩, ⟨by decide, by decide⟩, ?_⟩
  unfold list_notes
  generalize db.notes.filter (fun n => n.vaultId == v) = l
  induction l with
  | nil => rfl
  | cons n ns ih =>
    have hins : ∀ (m : NoteRow) (l : List NoteRow),
        (insertByTitle m l).length = l.length + 1 := by
      intro m l
      induction l with
      | nil => rfl
      | cons x xs ihx =>
        unfold insertByTitle
        by_cases hle : charListLe m.title.data x.title.data = true
        · simp [hle]
        · simp [hle, ihx]
    simp [sortByTitle, hins, ih]

/-- A concrete hash-function pair for closed instances (the claims under
test hold for every `Hash`, so the identity works as well as sha256). -/
def idHash : Hash := ⟨fun s => s, fun s => s⟩

/-- A concrete parsed markdown file with one tag and one wikilink. -/
def fileA : FileData := ⟨"A.md", "A", "x", "", ["t"], [("B", none)]⟩

/-- A concrete store holding one vault `v` with three notes and one
resolved internal link from `idA` to `idB` (the spec's Scenario A). -/
def dbThree : DB :=
  { DB.empty with
    notes := [⟨"idA", "v", "A.md", "A", "h", 1, 1, ""⟩,
              ⟨"idB", "v", "B.md", "B", "h", 1, 1, ""⟩,
              ⟨"idC", "v", "C.md", "C", "h", 1, 1, ""⟩],
    graphMetrics := [MetricsRow.init "idA", MetricsRow.init "idB", MetricsRow.init "idC"],
    links := [⟨1, "idA", some "idB", "B", "internal", none⟩],
    nextLinkId := 2 }

/-- Algorithm outcomes in which every library call succeeds. -/
def algOk : AlgoOutcomes :=
  ⟨.ok fun _ => 0, .ok fun _ => 0, .ok fun _ => 0, .ok fun _ => 0⟩

/-- Algorithm outcomes in which every library call raises internally. -/
def algFail : AlgoOutcomes :=
  ⟨.error "PowerIterationFailedConvergence", .error "e", .error "e", .error "e"⟩

/-- The scan loop ignores failing files: folding `process_file` over a file
list equals folding it over the successfully parsed files only. -/
theorem foldl_process_file_filter (h : Hash) (vid : String) (files : List FileEntry)
    (acc : ScanStats × DB) :
    files.foldl (process_file h vid) acc
      = (files.filter FileEntry.isOk).foldl (process_file h vid) acc := by
  induction files generalizing acc with
  | nil => rfl
  | cons f fs ih =>
    cases f with
    | ok d => simp only [List.foldl_cons, List.filter_cons_of_pos, FileEntry.isOk, ih]
    | failed =>
      simp only [List.foldl_cons, List.filter_cons_of_neg, FileEntry.isOk, Bool.false_eq_true,
        not_false_iff, process_file, ih]

/-- C8 counterexample: a file whose parse raises is not counted anywhere —
the scan that hits the failure is indistinguishable (same returned
statistics dictionary, same store) from the scan that never saw the file,
and the statistics dictionary built by `scan_vault` has no error entry at
all, so no failure count is returned. -/
theorem scan_failed_file_leaves_no_trace :
    scan_vault idHash "/v" "v" [FileEntry.failed, FileEntry.ok fileA] DB.empty
      = scan_vault idHash "/v" "v" [FileEntry.ok fileA] DB.empty := by decide

/-- An interrupted file is, in final effect, exactly an exception-free file
carrying its truncated payload: the note row, the completed tag and link
writes, and their statistics increments persist. -/
theorem process_file_interrupted_eq (h : Hash) (vid : String) (acc : ScanStats × DB)
    (d : FileData) (k : Nat) (hk : k ≠ 0) :
    process_file_interrupted h vid acc d k
      = process_file h vid acc (FileEntry.ok (truncateAt d k)) := by
  unfold process_file_interrupted
  rw [if_neg hk]
  rfl

/-- The outcome-level scan fold equals the plain scan fold over the
residues, with the files that failed before their first write dropped. -/
theorem foldl_process_outcome (h : Hash) (vid : String) :
    ∀ (files : List FileOutcome) (acc : ScanStats × DB),
      files.foldl (process_outcome h vid) acc
        = ((files.map FileOutcome.residue).filter FileEntry.isOk).foldl
            (process_file h vid) acc := by
  intro files
  induction files with
  | nil => intro acc; rfl
  | cons o os ih =>
    intro acc
    rw [List.foldl_cons, List.map_cons]
    cases o with
    | parsed d =>
      rw [List.filter_cons_of_pos (by rfl), List.foldl_cons]
      exact ih _
    | parseFailed =>
      rw [List.filter_cons_of_neg (by simp [FileOutcome.residue, FileEntry.isOk])]
      exact ih _
    | writeFailed d k =>
      by_cases hk : k = 0
      · subst hk
        have hres : FileOutcome.residue (.writeFailed d 0) = FileEntry.failed := rfl
        rw [hres, List.filter_cons_of_neg (by simp [FileEntry.isOk])]
        have hstep : process_outcome h vid acc (.writeFailed d 0) = acc := rfl
        rw [hstep]
        exact ih _
      · have hres : FileOutcome.residue (.writeFailed d k)
            = FileEntry.ok (truncateAt d k) := by
          simp only [FileOutcome.residue]
          rw [if_neg hk]
        rw [hres, List.filter_cons_of_pos (by rfl), List.foldl_cons]
        have hstep : process_outcome h vid acc (.writeFailed d k)
            = process_file h vid acc (.ok (truncateAt d k)) :=
          process_file_interrupted_eq h vid acc d k hk
        rw [hstep]
        exact ih _

/-- C8 amended: a parse or write failure for one file is caught and does
not abort the scan — every remaining file is still processed and the scan
completes normally — but the failure is counted nowhere (the statistics
dictionary has no error entry).  A file that fails before its first store
write leaves no trace at all; a file that fails mid-write keeps exactly the
writes completed before its exception — its note row and counts, the tags
and links already written — so the whole run equals a plain scan in which
each failed file is replaced by its residue (dropped entirely when it
failed before writing, its truncated payload otherwise). -/
theorem scan_failure_isolation (h : Hash) (vaultPath vaultName : String)
    (files : List FileOutcome) (db : DB) :
    scan_vault_outcomes h vaultPath vaultName files db
      = scan_vault h vaultPath vaultName
          ((files.map FileOutcome.residue).filter FileEntry.isOk) db := by
  simp only [scan_vault_outcomes, scan_vault]
  rw [foldl_process_outcome h _ files]

/-- Membership in the graph-metrics write-back fold of
`calculate_metrics`: a row of the result either belongs to a processed node
and carries exactly the computed per-node scores, or is an untouched row of
the input. -/
theorem metrics_fold_mem (pr bw cl cc : String → ℚ) (ind outd : String → Nat) :
    ∀ (nodes : List String) (gm : List MetricsRow) (m : MetricsRow),
      m ∈ nodes.foldl
        (fun gm n => updateMetricsRow gm n (pr n) (bw n) (cl n) (cc n) (ind n) (outd n)) gm →
      (m.noteId ∈ nodes ∧ m.pagerank = pr m.noteId ∧ m.betweenness = bw m.noteId ∧
        m.closeness = cl m.noteId ∧ m.clusteringCoefficient = cc m.noteId) ∨
      (m.noteId ∉ nodes ∧ m ∈ gm) := by
  intro nodes
  induction nodes with
  | nil =>
    intro gm m hm
    exact Or.inr ⟨List.not_mem_nil m.noteId, hm⟩
  | cons n ns ih =>
    intro gm m hm
    rcases ih _ m hm with ⟨hmem, hfields⟩ | ⟨hnot, hmem⟩
    · exact Or.inl ⟨List.mem_cons_of_mem n hmem, hfields⟩
    · rcases List.mem_map.mp hmem with ⟨r, hr, hrm⟩
      by_cases heq : r.noteId == n
      · rw [if_pos heq] at hrm
        have hid : r.noteId = n := by simpa using heq
        subst hrm
        refine Or.inl ⟨?_, ?_, ?_, ?_, ?_⟩ <;> simp [hid]
      · rw [if_neg heq] at hrm
        subst hrm
        refine Or.inr ⟨?_, hr⟩
        intro hcons
        rcases List.mem_cons.mp hcons with h1 | h1
        · exact heq (by simpa using h1)
        · exact hnot h1

/-- C5: metrics computation absorbs algorithm failures.  An empty graph
returns the empty metric set (`{'notes': 0}`) with no store write instead
of raising; when an algorithm raises internally, every graph node's stored
score for that metric is `0.0`, and the fallback applies independently to
pagerank, betweenness, closeness and clustering (the outcomes of the other
algorithms are arbitrary in each clause).  `calculate_metrics` is a total
function, so no failure reaches the caller. -/
theorem metrics_failure_fallback (db : DB) (v : String) (alg : AlgoOutcomes) :
    ((build_graph db v).nodes.length = 0 → calculate_metrics db v alg = (.empty, db)) ∧
    (∀ e, alg.pagerank = .error e → ∀ m ∈ (calculate_metrics db v alg).2.graphMetrics,
      m.noteId ∈ (build_graph db v).nodes → m.pagerank = 0) ∧
    (∀ e, alg.betweenness = .error e → ∀ m ∈ (calculate_metrics db v alg).2.graphMetrics,
      m.noteId ∈ (build_graph db v).nodes → m.betweenness = 0) ∧
    (∀ e, alg.closeness = .error e → ∀ m ∈ (calculate_metrics db v alg).2.graphMetrics,
      m.noteId ∈ (build_graph db v).nodes → m.closeness = 0) ∧
    (∀ e, alg.clustering = .error e → ∀ m ∈ (calculate_metrics db v alg).2.graphMetrics,
      m.noteId ∈ (build_graph db v).nodes → m.clusteringCoefficient = 0) := by
  refine ⟨fun h0 => by unfold calculate_metrics; rw [if_pos h0], ?_, ?_, ?_, ?_⟩
  all_goals
    intro e herr m hm hnode
    by_cases h0 : (build_graph db v).nodes.length = 0
    · rw [List.length_eq_zero] at h0
      rw [h0] at hnode
      exact absurd hnode (List.not_mem_nil _)
    · unfold calculate_metrics at hm
      rw [if_neg h0] at hm
      simp only at hm
      rcases metrics_fold_mem _ _ _ _ _ _ _ _ m hm with ⟨_, hpr, hbw, hcl, hcc⟩ | ⟨hnot, _⟩
      · first
        | (rw [hpr, herr]; rfl)
        | (rw [hbw, herr]; rfl)
        | (rw [hcl, herr]; rfl)
        | (rw [hcc, herr]; rfl)
      · exact absurd hnode hnot

/-- C5 witness: on the concrete three-note store, with every algorithm
raising, the stored metrics row of the isolated note is zero-valued. -/
theorem metrics_failure_fallback_witness :
    algFail.pagerank = Except.error "PowerIterationFailedConvergence" ∧
    MetricsRow.init "idC" ∈ (calculate_metrics dbThree "v" algFail).2.graphMetrics ∧
    (MetricsRow.init "idC").pagerank = 0 :=
  ⟨rfl, by decide,
    (metrics_failure_fallback dbThree "v" algFail).2.1 "PowerIterationFailedConvergence" rfl
      (MetricsRow.init "idC") (by decide) (by decide)⟩

/-- C6: the density reported by `calculate_metrics` is `networkx.density`
of the built graph: `E / (N * (N - 1))` for `N ≥ 2` (also when `E = 0`),
`0.0` for `N = 1`; for `N = 0` the empty metric set is returned, which
carries no density entry. -/
theorem reported_density_formula (db : DB) (v : String) (alg : AlgoOutcomes) :
    ((build_graph db v).nodes.length = 0 → (calculate_metrics db v alg).1 = .empty) ∧
    ((build_graph db v).nodes.length = 1 →
      (calculate_metrics db v alg).1.densityVal = some 0) ∧
    (2 ≤ (build_graph db v).nodes.length →
      (calculate_metrics db v alg).1.densityVal =
        some (((build_graph db v).edges.length : ℚ) /
          (((build_graph db v).nodes.length : ℚ) * (((build_graph db v).nodes.length : ℚ) - 1)))) := by
  refine ⟨fun h0 => by unfold calculate_metrics; rw [if_pos h0], ?_, ?_⟩
  · intro h1
    unfold calculate_metrics
    rw [if_neg (by omega)]
    simp only [MetricsResult.densityVal, Option.some.injEq]
    unfold nxDensity
    rw [if_pos (Or.inr (by omega))]
  · intro h2
    unfold calculate_metrics
    rw [if_neg (by omega)]
    simp only [MetricsResult.densityVal, Option.some.injEq]
    unfold nxDensity
    by_cases hE : (build_graph db v).edges.length = 0
    · rw [if_pos (Or.inl hE), hE]
      simp
    · rw [if_neg (by push_neg; exact ⟨hE, by omega⟩)]

/-- C6 witness: the concrete three-note, one-edge store has `N = 3 ≥ 2`
and reports density `E / (N * (N - 1))`. -/
theorem reported_density_formula_witness :
    2 ≤ (build_graph dbThree "v").nodes.length ∧
    (calculate_metrics dbThree "v" algOk).1.densityVal =
      some (((build_graph dbThree "v").edges.length : ℚ) /
        (((build_graph dbThree "v").nodes.length : ℚ) *
          (((build_graph dbThree "v").nodes.length : ℚ) - 1))) :=
  ⟨by decide, (reported_density_formula dbThree "v" algOk).2.2 (by decide)⟩

/-- Node membership after `add_node`. -/
theorem mem_nodes_addNode (g : DiGraph) (n m : String) :
    m ∈ (g.addNode n).nodes ↔ m ∈ g.nodes ∨ m = n := by
  unfold DiGraph.addNode
  by_cases hn : n ∈ g.nodes
  · rw [if_pos hn]
    exact ⟨Or.inl, fun h => h.elim id (fun e => e ▸ hn)⟩
  · rw [if_neg hn]
    simp

/-- `add_node` leaves the edges untouched. -/
theorem edges_addNode (g : DiGraph) (n : String) : (g.addNode n).edges = g.edges := by
  unfold DiGraph.addNode
  split <;> rfl

/-- `add_node` preserves node distinctness. -/
theorem nodup_nodes_addNode (g : DiGraph) (n : String) (h : g.nodes.Nodup) :
    (g.addNode n).nodes.Nodup := by
  unfold DiGraph.addNode
  by_cases hn : n ∈ g.nodes
  · rwa [if_pos hn]
  · rw [if_neg hn]
    simp [List.nodup_append, h, hn]

/-- Node membership after `add_edge`. -/
theorem mem_nodes_addEdge (g : DiGraph) (u v m : String) :
    m ∈ (g.addEdge u v).nodes ↔ m ∈ g.nodes ∨ m = u ∨ m = v := by
  unfold DiGraph.addEdge
  split
  · rw [mem_nodes_addNode, mem_nodes_addNode, or_assoc]
  · show m ∈ ((g.addNode u).addNode v).nodes ↔ _
    rw [mem_nodes_addNode, mem_nodes_addNode, or_assoc]

/-- Edge membership after `add_edge`. -/
theorem mem_edges_addEdge (g : DiGraph) (u v : String) (e : String × String) :
    e ∈ (g.addEdge u v).edges ↔ e ∈ g.edges ∨ e = (u, v) := by
  unfold DiGraph.addEdge
  by_cases he : (u, v) ∈ ((g.addNode u).addNode v).edges
  · rw [if_pos he]
    rw [edges_addNode, edges_addNode] at he ⊢
    exact ⟨Or.inl, fun h => h.elim id (fun hh => hh ▸ he)⟩
  · rw [if_neg he]
    show e ∈ ((g.addNode u).addNode v).edges ++ [(u, v)] ↔ _
    rw [edges_addNode, edges_addNode]
    simp

/-- `add_edge` preserves node distinctness. -/
theorem nodup_nodes_addEdge (g : DiGraph) (u v : String) (h : g.nodes.Nodup) :
    (g.addEdge u v).nodes.Nodup := by
  unfold DiGraph.addEdge
  split <;> exact nodup_nodes_addNode _ _ (nodup_nodes_addNode _ _ h)

/-- `add_edge` preserves edge distinctness. -/
theorem nodup_edges_addEdge (g : DiGraph) (u v : String) (h : g.edges.Nodup) :
    (g.addEdge u v).edges.Nodup := by
  unfold DiGraph.addEdge
  by_cases he : (u, v) ∈ ((g.addNode u).addNode v).edges
  · rw [if_pos he, edges_addNode, edges_addNode]
    exact h
  · rw [if_neg he]
    rw [edges_addNode, edges_addNode] at he ⊢
    simp [List.nodup_append, h, he]

/-- The node-insertion fold of `build_graph` adds no edges. -/
theorem foldl_addNode_edges (ns : List NoteRow) :
    ∀ g : DiGraph, (ns.foldl (fun g n => g.addNode n.id) g).edges = g.edges := by
  induction ns with
  | nil => intro g; rfl
  | cons n ns ih => intro g; rw [List.foldl_cons, ih, edges_addNode]

/-- Node membership after the node-insertion fold of `build_graph`. -/
theorem foldl_addNode_nodes_mem (ns : List NoteRow) :
    ∀ (g : DiGraph) (m : String),
      m ∈ (ns.foldl (fun g n => g.addNode n.id) g).nodes ↔
        m ∈ g.nodes ∨ ∃ x ∈ ns, x.id = m := by
  induction ns with
  | nil => intro g m; simp
  | cons n ns ih =>
    intro g m
    rw [List.foldl_cons, ih, mem_nodes_addNode]
    constructor
    · rintro ((h | h) | ⟨x, hx, hid⟩)
      · exact Or.inl h
      · exact Or.inr ⟨n, List.mem_cons_self n ns, h.symm⟩
      · exact Or.inr ⟨x, List.mem_cons_of_mem n hx, hid⟩
    · rintro (h | ⟨x, hx, hid⟩)
      · exact Or.inl (Or.inl h)
      · rcases List.mem_cons.mp hx with rfl | hx
        · exact Or.inl (Or.inr hid.symm)
        · exact Or.inr ⟨x, hx, hid⟩

/-- The node-insertion fold preserves node distinctness. -/
theorem foldl_addNode_nodes_nodup (ns : List NoteRow) :
    ∀ g : DiGraph, g.nodes.Nodup → (ns.foldl (fun g n => g.addNode n.id) g).nodes.Nodup := by
  induction ns with
  | nil => intro g h; exact h
  | cons n ns ih => intro g h; exact ih _ (nodup_nodes_addNode _ _ h)

/-- The edge-insertion step of `build_graph`, matching the `match` on the
queried `target_note_id`. -/
def edgeStep (g : DiGraph) (l : LinkRow) : DiGraph :=
  match l.targetNoteId with
  | some t => g.addEdge l.sourceNoteId t
  | none => g

/-- Edge membership after the edge-insertion fold of `build_graph`. -/
theorem foldl_edgeStep_edges_mem (ls : List LinkRow) :
    ∀ (g : DiGraph) (e : String × String),
      e ∈ (ls.foldl edgeStep g).edges ↔
        e ∈ g.edges ∨ ∃ l ∈ ls, l.sourceNoteId = e.1 ∧ l.targetNoteId = some e.2 := by
  induction ls with
  | nil => intro g e; simp
  | cons l ls ih =>
    rintro g ⟨e1, e2⟩
    rw [List.foldl_cons, ih]
    cases hl : l.targetNoteId with
    | none =>
      simp only [edgeStep, hl]
      constructor
      · rintro (h | ⟨x, hx, hs⟩)
        · exact Or.inl h
        · exact Or.inr ⟨x, List.mem_cons_of_mem l hx, hs⟩
      · rintro (h | ⟨x, hx, hs, ht⟩)
        · exact Or.inl h
        · rcases List.mem_cons.mp hx with rfl | hx
          · rw [hl] at ht; cases ht
          · exact Or.inr ⟨x, hx, hs, ht⟩
    | some t =>
      simp only [edgeStep, hl, mem_edges_addEdge]
      constructor
      · rintro ((h | heq) | ⟨x, hx, hs⟩)
        · exact Or.inl h
        · rcases Prod.mk.injEq .. ▸ heq with ⟨rfl, rfl⟩
          exact Or.inr ⟨l, List.mem_cons_self l ls, rfl, hl⟩
        · exact Or.inr ⟨x, List.mem_cons_of_mem l hx, hs⟩
      · rintro (h | ⟨x, hx, hs, ht⟩)
        · exact Or.inl (Or.inl h)
        · rcases List.mem_cons.mp hx with rfl | hx
          · rw [hl] at ht
            injection ht with ht
            exact Or.inl (Or.inr (by rw [← hs, ht]))
          · exact Or.inr ⟨x, hx, hs, ht⟩

/-- Node membership after the edge-insertion fold of `build_graph`. -/
theorem foldl_edgeStep_nodes_mem (ls : List LinkRow) :
    ∀ (g : DiGraph) (n : String),
      n ∈ (ls.foldl edgeStep g).nodes ↔
        n ∈ g.nodes ∨ ∃ l ∈ ls, l.targetNoteId.isSome ∧
          (l.sourceNoteId = n ∨ l.targetNoteId = some n) := by
  induction ls with
  | nil => intro g n; simp
  | cons l ls ih =>
    intro g n
    rw [List.foldl_cons, ih]
    cases hl : l.targetNoteId with
    | none =>
      simp only [edgeStep, hl]
      constructor
      · rintro (h | ⟨x, hx, hs⟩)
        · exact Or.inl h
        · exact Or.inr ⟨x, List.mem_cons_of_mem l hx, hs⟩
      · rintro (h | ⟨x, hx, hsome, hor⟩)
        · exact Or.inl h
        · rcases List.mem_cons.mp hx with rfl | hx
          · rw [hl] at hsome; cases hsome
          · exact Or.inr ⟨x, hx, hsome, hor⟩
    | some t =>
      simp only [edgeStep, hl, mem_nodes_addEdge]
      constructor
      · rintro ((h | rfl | rfl) | ⟨x, hx, hs⟩)
        · exact Or.inl h
        · exact Or.inr ⟨l, List.mem_cons_self l ls, by simp [hl]⟩
        · exact Or.inr ⟨l, List.mem_cons_self l ls, by simp [hl]⟩
        · exact Or.inr ⟨x, List.mem_cons_of_mem l hx, hs⟩
      · rintro (h | ⟨x, hx, hsome, hor⟩)
        · exact Or.inl (Or.inl h)
        · rcases List.mem_cons.mp hx with rfl | hx
          · rcases hor with hs | ht
            · exact Or.inl (Or.inr (Or.inl hs.symm))
            · rw [hl] at ht
              injection ht with ht
              exact Or.inl (Or.inr (Or.inr ht.symm))
          · exact Or.inr ⟨x, hx, hsome, hor⟩

/-- The edge-insertion fold preserves node distinctness. -/
theorem foldl_edgeStep_nodes_nodup (ls : List LinkRow) :
    ∀ g : DiGraph, g.nodes.Nodup → (ls.foldl edgeStep g).nodes.Nodup := by
  induction ls with
  | nil => intro g h; exact h
  | cons l ls ih =>
    intro g h
    refine ih _ ?_
    unfold edgeStep
    cases l.targetNoteId with
    | none => exact h
    | some t => exact nodup_nodes_addEdge _ _ _ h

/-- The edge-insertion fold preserves edge distinctness. -/
theorem foldl_edgeStep_edges_nodup (ls : List LinkRow) :
    ∀ g : DiGraph, g.edges.Nodup → (ls.foldl edgeStep g).edges.Nodup := by
  induction ls with
  | nil => intro g h; exact h
  | cons l ls ih =>
    intro g h
    refine ih _ ?_
    unfold edgeStep
    cases l.targetNoteId with
    | none => exact h
    | some t => exact nodup_edges_addEdge _ _ _ h

/-- A concrete store with one vault `v` containing the single note `idA`,
two identical resolved self-references of `idA`, and one resolved internal
link between two notes of a different vault. -/
def dbDup : DB :=
  { DB.empty with
    notes := [⟨"idA", "v", "A.md", "A", "h", 1, 1, ""⟩],
    links := [⟨1, "idA", some "idA", "A", "internal", none⟩,
              ⟨2, "idA", some "idA", "A", "internal", none⟩,
              ⟨3, "X", some "Y", "Y", "internal", none⟩],
    nextLinkId := 4 }

/-- C4 counterexample: `build_graph` does not create one node per vault
note and one edge per internal reference.  On `dbDup`, vault `v` has one
note and the table has three internal references with non-null targets,
but the built graph has three nodes (the edge query is not filtered by
vault, and `networkx` adds missing edge endpoints as nodes) and two edges
(the two parallel self-references collapse into one self-loop). -/
theorem build_graph_not_per_reference :
    (list_notes dbDup "v").length = 1 ∧
    (internalLinks dbDup).length = 3 ∧
    (build_graph dbDup "v").nodes.length = 3 ∧
    (build_graph dbDup "v").edges.length = 2 := by decide

/-- C4 amended: characterization of `build_graph`.  The edge set holds one
edge per distinct `(source, target)` pair among the internal, resolved
rows of the whole `links` table (broken or unresolved references contribute
no edge; a self-reference yields a self-loop `(u, u)`); the node set holds
the vault's notes together with every endpoint of such an edge row (also
when the endpoint lies outside the vault); both lists are duplicate-free. -/
theorem build_graph_characterization (db : DB) (v : String) :
    (∀ e : String × String, e ∈ (build_graph db v).edges ↔
      ∃ l ∈ db.links, l.linkType = "internal" ∧ l.sourceNoteId = e.1 ∧
        l.targetNoteId = some e.2) ∧
    (∀ n : String, n ∈ (build_graph db v).nodes ↔
      (∃ note ∈ list_notes db v, note.id = n) ∨
      ∃ l ∈ db.links, l.linkType = "internal" ∧ l.targetNoteId.isSome ∧
        (l.sourceNoteId = n ∨ l.targetNoteId = some n)) ∧
    (build_graph db v).nodes.Nodup ∧ (build_graph db v).edges.Nodup := by
  have hbg : build_graph db v =
      (internalLinks db).foldl edgeStep
        ((list_notes db v).foldl (fun g n => g.addNode n.id) ⟨[], []⟩) := by
    unfold build_graph
    rfl
  have hmemfilter : ∀ l : LinkRow, l ∈ internalLinks db ↔
      l ∈ db.links ∧ l.linkType = "internal" ∧ l.targetNoteId.isSome := by
    intro l
    unfold internalLinks
    rw [List.mem_filter]
    simp [Bool.and_eq_true, beq_iff_eq]
  refine ⟨?_, ?_, ?_, ?_⟩
  · intro e
    rw [hbg, foldl_edgeStep_edges_mem, foldl_addNode_edges]
    simp only [List.not_mem_nil, false_or]
    constructor
    · rintro ⟨l, hl, hs, ht⟩
      rcases (hmemfilter l).mp hl with ⟨hmem, htype, _⟩
      exact ⟨l, hmem, htype, hs, ht⟩
    · rintro ⟨l, hmem, htype, hs, ht⟩
      exact ⟨l, (hmemfilter l).mpr ⟨hmem, htype, by rw [ht]; rfl⟩, hs, ht⟩
  · intro n
    rw [hbg, foldl_edgeStep_nodes_mem, foldl_addNode_nodes_mem]
    simp only [List.not_mem_nil, false_or]
    constructor
    · rintro (h | ⟨l, hl, hsome, hor⟩)
      · exact Or.inl h
      · rcases (hmemfilter l).mp hl with ⟨hmem, htype, _⟩
        exact Or.inr ⟨l, hmem, htype, hsome, hor⟩
    · rintro (h | ⟨l, hmem, htype, hsome, hor⟩)
      · exact Or.inl h
      · exact Or.inr ⟨l, (hmemfilter l).mpr ⟨hmem, htype, hsome⟩, hsome, hor⟩
  · rw [hbg]
    exact foldl_edgeStep_nodes_nodup _ _ (foldl_addNode_nodes_nodup _ _ List.nodup_nil)
  · rw [hbg]
    have : ((list_notes db v).foldl (fun g n => g.addNode n.id) (⟨[], []⟩ : DiGraph)).edges.Nodup := by
      rw [foldl_addNode_edges]
      exact List.nodup_nil
    exact foldl_edgeStep_edges_nodup _ _ this

/-- The code's resolution chain equals the amended five-step first-match
chain.  The only difference in shape is step (3): the code retries the
lookup only when the text literally ends in `.md`, while the chain always
consults the `.md`-stripped key — when the text does not end in `.md` that
key coincides with the step-(2) key, whose lookup already failed, so the
chains agree. -/
theorem resolve_link_eq_order (cache : List (String × String)) (sp t : String) :
    resolve_link cache sp t = resolveLinkOrder cache sp t := by
  unfold resolve_link resolveLinkOrder
  cases h1 : cacheFind cache (pyStrip (stripAnchor t)) with
  | some nid => simp [h1, Option.orElse]
  | none =>
    by_cases hmd : strEndsWith (pyStrip (stripAnchor t)) ".md" = true
    · cases h2 : cacheFind cache (strDropRight (pyStrip (stripAnchor t)) 3) with
      | some nid => simp [h1, hmd, h2, Option.orElse]
      | none => simp [h1, hmd, h2, Option.orElse]
    · simp [h1, hmd, Option.orElse]

/-- The per-link update preserves the link's source note id. -/
theorem applyResolution_sourceNoteId (cache : List (String × String)) (n : NoteRow) (l : LinkRow) :
    (applyResolution cache n l).sourceNoteId = l.sourceNoteId := by
  unfold applyResolution
  cases resolve_link cache n.path l.targetPath <;> rfl

/-- The sequential per-note passes of `resolve_all_links` amount to one map
over the whole links table: each link whose source belongs to the vault is
updated against its (unique) source note, all other links are untouched. -/
theorem foldl_resolve_map (cache : List (String × String)) :
    ∀ (ns : List NoteRow) (L : List LinkRow),
      ((ns.map (fun n => n.id)).Nodup) →
      ns.foldl (fun ls n =>
          ls.map (fun l => if l.sourceNoteId == n.id then applyResolution cache n l else l)) L
        = L.map (fun l =>
            match ns.find? (fun n => n.id == l.sourceNoteId) with
            | some n => applyResolution cache n l
            | none => l) := by
  intro ns
  induction ns with
  | nil =>
    intro L _
    simp [List.find?]
  | cons n ns ih =>
    intro L hnd
    have htl : ((ns.map (fun n => n.id)).Nodup) := (List.nodup_cons.mp hnd).2
    have hhd : n.id ∉ ns.map (fun n => n.id) := (List.nodup_cons.mp hnd).1
    rw [List.foldl_cons, ih _ htl, List.map_map]
    refine congrArg (fun f => L.map f) (funext fun l => ?_)
    simp only [Function.comp]
    by_cases hsrc : l.sourceNoteId = n.id
    · rw [if_pos (by simp [hsrc])]
      have hfind : ns.find? (fun x => x.id == (applyResolution cache n l).sourceNoteId) = none := by
        rw [List.find?_eq_none]
        intro x hx
        rw [applyResolution_sourceNoteId, hsrc]
        intro hxeq
        exact hhd (List.mem_map.mpr ⟨x, hx, by simpa using hxeq⟩)
      rw [hfind]
      have : (List.find? (fun x => x.id == l.sourceNoteId) (n :: ns)) = some n := by
        rw [List.find?_cons_of_pos]
        simp [hsrc]
      rw [this]
    · rw [if_neg (by simp [hsrc])]
      have : (List.find? (fun x => x.id == l.sourceNoteId) (n :: ns))
          = List.find? (fun x => x.id == l.sourceNoteId) ns := by
        rw [List.find?_cons_of_neg]
        simp
        exact fun h => hsrc h.symm
      rw [this]

/-- A concrete store with one vault `v` holding a note titled `a` and one
unresolved reference whose raw target `"a#b\nc"` carries a `#` followed by
an interior newline. -/
def dbNl : DB :=
  { DB.empty with
    notes := [⟨"idA", "v", "a.md", "a", "h", 1, 1, ""⟩],
    links := [⟨1, "idA", none, "a#b\nc", "internal", none⟩],
    nextLinkId := 2 }

/-- C2 counterexample: the resolver does not strip "the substring from the
first `#` or `^` onward".  Without `re.MULTILINE`, `re.sub(r'[#^].*$', '',
...)` leaves the target `"a#b\nc"` untouched (the `#` is followed by an
interior newline, so `$` never matches), and the resolver marks the
reference broken — whereas the claimed order strips the anchor to `"a"`,
which matches the note exactly at step (2). -/
theorem resolve_anchor_newline_refuted :
    (resolve_all_links dbNl "v").links
      = [⟨1, "idA", none, "a#b\nc", "broken", none⟩] ∧
    resolveLinkSpec (build_note_cache dbNl "v") "a.md" "a#b\nc" = some "idA" := by
  decide

/-- C2 amended: for every stored reference whose source note belongs to the
vault, `resolve_all_links` rewrites the row exactly as the amended
resolution order prescribes — (1) the anchor strip is
`re.sub(r'[#^].*$', '', text)` without MULTILINE (the text is truncated at
the first `#`/`^` not followed by an interior newline, a final trailing
newline being kept; anchors followed by an interior newline are not
stripped), then the text is whitespace-stripped; (2) exact lookup-table
match; (3) match after stripping a literal `.md` suffix; (4) match of the
text joined as a path relative to the source note's directory; first match
wins — setting `link_type = 'internal'` with a non-null target id on a
match and `link_type = 'broken'` otherwise (rows whose source lies outside
the vault are untouched).  The first conjunct is the per-reference
refinement `resolve_link = resolveLinkOrder`; the hypothesis asks the
vault's notes to have distinct ids, which holds whenever the id hash has
not collided. -/
theorem resolver_applies_code_order (db : DB) (v : String)
    (hnd : ((list_notes db v).map (fun n => n.id)).Nodup) :
    (∀ (cache : List (String × String)) (sp t : String),
       resolve_link cache sp t = resolveLinkOrder cache sp t) ∧
    (resolve_all_links db v).links = db.links.map (fun l =>
      match (list_notes db v).find? (fun n => n.id == l.sourceNoteId) with
      | some n =>
        match resolveLinkOrder (build_note_cache db v) n.path l.targetPath with
        | some nid => { l with targetNoteId := some nid, linkType := "internal" }
        | none => { l with linkType := "broken" }
      | none => l) := by
  refine ⟨resolve_link_eq_order, ?_⟩
  unfold resolve_all_links
  simp only
  rw [foldl_resolve_map _ _ _ hnd]
  refine congrArg (fun f => db.links.map f) (funext fun l => ?_)
  cases (list_notes db v).find? (fun n => n.id == l.sourceNoteId) with
  | some n =>
    simp only
    unfold applyResolution
    rw [resolve_link_eq_order]
  | none => rfl

/-- A concrete store with one vault `v` holding two notes and two
unresolved references from `idA`: one to the existing note `B`, one to a
missing note. -/
def dbRes : DB :=
  { DB.empty with
    notes := [⟨"idA", "v", "A.md", "A", "h", 1, 1, ""⟩,
              ⟨"idB", "v", "B.md", "B", "h", 1, 1, ""⟩],
    links := [⟨1, "idA", none, "B", "internal", none⟩,
              ⟨2, "idA", none, "Missing", "internal", none⟩],
    nextLinkId := 3 }

/-- C2 witness: on the concrete store the hypothesis holds and the batch
resolution marks the reference to `B` internal with target `idB` and the
reference to `Missing` broken, exactly as the amended chain prescribes. -/
theorem resolver_applies_code_order_witness :
    ((list_notes dbRes "v").map (fun n => n.id)).Nodup ∧
    (resolve_all_links dbRes "v").links = dbRes.links.map (fun l =>
      match (list_notes dbRes "v").find? (fun n => n.id == l.sourceNoteId) with
      | some n =>
        match resolveLinkOrder (build_note_cache dbRes "v") n.path l.targetPath with
        | some nid => { l with targetNoteId := some nid, linkType := "internal" }
        | none => { l with linkType := "broken" }
      | none => l) ∧
    (resolve_all_links dbRes "v").links
      = [⟨1, "idA", some "idB", "B", "internal", none⟩,
         ⟨2, "idA", none, "Missing", "broken", none⟩] :=
  ⟨by decide, (resolver_applies_code_order dbRes "v" (by decide)).2, by decide⟩

/-- C1 counterexample: rescanning an unchanged vault is not idempotent on
Reference rows.  Scanning one file containing one wikilink twice leaves the
Note rows identical but doubles the `links` table (1 row after the first
scan, 2 after the second): `add_link` is a plain `INSERT` and no code path
deletes or replaces a note's previous outgoing references. -/
theorem rescan_duplicates_link_rows :
    (scan_vault idHash "/v" "v" [FileEntry.ok fileA] DB.empty).2.notes.length = 1 ∧
    (scan_vault idHash "/v" "v" [FileEntry.ok fileA]
        (scan_vault idHash "/v" "v" [FileEntry.ok fileA] DB.empty).2).2.notes
      = (scan_vault idHash "/v" "v" [FileEntry.ok fileA] DB.empty).2.notes ∧
    (scan_vault idHash "/v" "v" [FileEntry.ok fileA] DB.empty).2.links.length = 1 ∧
    (scan_vault idHash "/v" "v" [FileEntry.ok fileA]
        (scan_vault idHash "/v" "v" [FileEntry.ok fileA] DB.empty).2).2.links.length = 2 := by
  decide

/-- The successfully parsed files of a scan, in order. -/
def okData : List FileEntry → List FileData
  | [] => []
  | .ok d :: fs => d :: okData fs
  | .failed :: fs => okData fs

/-- The note id `add_note` computes for a file of the vault. -/
def nidOf (h : Hash) (vaultId : String) (d : FileData) : String :=
  h.genId (vaultId ++ ":" ++ d.relPath)

/-- The note row `add_note` writes for a file of the vault. -/
def noteRowOf (h : Hash) (vaultId : String) (d : FileData) : NoteRow :=
  { id := nidOf h vaultId d, vaultId := vaultId, path := d.relPath, title := d.title,
    contentHash := h.hashContent d.content, wordCount := pyWordCount d.content,
    charCount := d.content.length, metadata := d.metadata }

/-- A row is saturated in a note table when it is present and is the only
row carrying its id. -/
def NoteSat (ns : List NoteRow) (r : NoteRow) : Prop :=
  r ∈ ns ∧ ∀ x ∈ ns, x.id = r.id → x = r

/-- Mapping a function that fixes every member of a list is the identity. -/
theorem map_self {α : Type} (f : α → α) (l : List α) (h : ∀ x ∈ l, f x = x) :
    l.map f = l := by
  induction l with
  | nil => rfl
  | cons a as ih =>
    rw [List.map_cons, h a (List.mem_cons_self a as),
      ih (fun x hx => h x (List.mem_cons_of_mem a hx))]

/-- Upserting a row saturates it. -/
theorem noteSat_upsert_self (r : NoteRow) (ns : List NoteRow) :
    NoteSat (upsertNoteRow r ns) r := by
  unfold upsertNoteRow
  by_cases hany : (ns.any fun x => x.id == r.id) = true
  · rw [if_pos hany]
    rcases List.any_eq_true.mp hany with ⟨x, hx, hxid⟩
    constructor
    · exact List.mem_map.mpr ⟨x, hx, by rw [if_pos hxid]⟩
    · intro y hy hyid
      rcases List.mem_map.mp hy with ⟨z, hz, hzy⟩
      by_cases hzid : (z.id == r.id) = true
      · rw [if_pos hzid] at hzy; exact hzy.symm
      · rw [if_neg hzid] at hzy
        subst hzy
        exact absurd (beq_iff_eq.mpr hyid) hzid
  · rw [if_neg hany]
    constructor
    · exact List.mem_append_right _ (List.mem_singleton.mpr rfl)
    · intro y hy hyid
      rcases List.mem_append.mp hy with hy | hy
      · exact absurd (show (ns.any fun x => x.id == r.id) = true from
          List.any_eq_true.mpr ⟨y, hy, beq_iff_eq.mpr hyid⟩) hany
      · exact List.mem_singleton.mp hy

/-- Upserting a row with a different id preserves saturation. -/
theorem noteSat_upsert_other (q r : NoteRow) (ns : List NoteRow) (hne : q.id ≠ r.id)
    (hs : NoteSat ns r) : NoteSat (upsertNoteRow q ns) r := by
  unfold upsertNoteRow
  by_cases hany : (ns.any fun x => x.id == q.id) = true
  · rw [if_pos hany]
    constructor
    · refine List.mem_map.mpr ⟨r, hs.1, ?_⟩
      rw [if_neg (by simpa using fun h => hne h.symm)]
    · intro y hy hyid
      rcases List.mem_map.mp hy with ⟨z, hz, hzy⟩
      by_cases hzid : (z.id == q.id) = true
      · rw [if_pos hzid] at hzy
        subst hzy
        exact absurd hyid hne
      · rw [if_neg hzid] at hzy
        exact hs.2 y (hzy ▸ hz) hyid
  · rw [if_neg hany]
    constructor
    · exact List.mem_append_left _ hs.1
    · intro y hy hyid
      rcases List.mem_append.mp hy with hy | hy
      · exact hs.2 y hy hyid
      · rw [List.mem_singleton.mp hy] at hyid
        exact absurd hyid hne

/-- Upserting an already saturated row is a no-op. -/
theorem upsert_of_noteSat (r : NoteRow) (ns : List NoteRow) (hs : NoteSat ns r) :
    upsertNoteRow r ns = ns := by
  unfold upsertNoteRow
  rw [if_pos (show (ns.any fun x => x.id == r.id) = true from
    List.any_eq_true.mpr ⟨r, hs.1, beq_iff_eq.mpr rfl⟩)]
  refine map_self _ _ fun x hx => ?_
  by_cases hxid : (x.id == r.id) = true
  · rw [if_pos hxid]
    exact (hs.2 x hx (beq_iff_eq.mp hxid)).symm
  · rw [if_neg hxid]

/-- Upserting the same vault row twice equals upserting it once. -/
theorem upsertVaultRow_idem (r : VaultRow) (l : List VaultRow) :
    upsertVaultRow r (upsertVaultRow r l) = upsertVaultRow r l := by
  unfold upsertVaultRow
  by_cases hany : (l.any fun x => x.id == r.id) = true
  · rw [if_pos hany]
    rcases List.any_eq_true.mp hany with ⟨x, hx, hxid⟩
    have hany2 : ((l.map fun x => if x.id == r.id then r else x).any
        fun x => x.id == r.id) = true :=
      List.any_eq_true.mpr ⟨r, List.mem_map.mpr ⟨x, hx, by rw [if_pos hxid]⟩,
        beq_iff_eq.mpr rfl⟩
    rw [if_pos hany2, List.map_map]
    refine List.map_congr_left fun y _ => ?_
    simp only [Function.comp]
    by_cases hyid : (y.id == r.id) = true
    · rw [if_pos hyid, if_pos (show (r.id == r.id) = true from beq_iff_eq.mpr rfl)]
    · rw [if_neg hyid, if_neg hyid]
  · rw [if_neg hany]
    have hany2 : (((l ++ [r]).any fun x => x.id == r.id)) = true :=
      List.any_eq_true.mpr ⟨r, List.mem_append_right _ (List.mem_singleton.mpr rfl),
        beq_iff_eq.mpr rfl⟩
    rw [if_pos hany2, List.map_append]
    congr 1
    · refine map_self _ _ fun x hx => ?_
      rw [if_neg]
      intro hxid
      exact absurd (show (l.any fun x => x.id == r.id) = true from
        List.any_eq_true.mpr ⟨x, hx, hxid⟩) hany
    · rw [List.map_singleton, if_pos (show (r.id == r.id) = true from beq_iff_eq.mpr rfl)]

/-- Effect of `add_note` on the store, expressed through the file it
ingests. -/
theorem add_note_spec (h : Hash) (vid : String) (d : FileData) (db : DB) :
    add_note h vid d.relPath d.title d.content d.metadata db =
    (nidOf h vid d,
      { db with
        notes := upsertNoteRow (noteRowOf h vid d) db.notes,
        graphMetrics :=
          if (db.graphMetrics.any fun m => m.noteId == nidOf h vid d) = true
          then db.graphMetrics
          else db.graphMetrics ++ [MetricsRow.init (nidOf h vid d)] }) := rfl

/-- Effect of `add_link` on the store. -/
theorem add_link_spec (db : DB) (src tp : String) (lt : Option String) :
    (add_link db src tp lt).2 =
    { db with
      links := db.links ++ [⟨db.nextLinkId, src, none, tp, "internal", lt⟩],
      nextLinkId := db.nextLinkId + 1 } := rfl

/-- Effect of `add_note_tag` on the store: it only ever appends to the
`tags` and `note_tags` tables (and bumps the tag counter accordingly). -/
theorem add_note_tag_spec (db : DB) (nid t : String) :
    ∃ dt dn, add_note_tag db nid t =
      { db with
        tags := db.tags ++ dt, nextTagId := db.nextTagId + dt.length,
        noteTags := db.noteTags ++ dn } := by
  unfold add_note_tag add_tag
  cases hf : db.tags.find? (fun x => x.tag == t) with
  | some r =>
    simp only
    by_cases hp : (nid, r.id) ∈ db.noteTags
    · exact ⟨[], [], by rw [if_pos hp]; simp⟩
    · exact ⟨[], [(nid, r.id)], by rw [if_neg hp]; simp⟩
  | none =>
    simp only
    by_cases hp : (nid, db.nextTagId) ∈ db.noteTags
    · exact ⟨[⟨db.nextTagId, t⟩], [], by rw [if_pos hp]; simp⟩
    · exact ⟨[⟨db.nextTagId, t⟩], [(nid, db.nextTagId)], by rw [if_neg hp]; simp⟩

/-- Effect of the tag loop of `process_file`: only appends to `tags` and
`note_tags`. -/
theorem tagsFold_spec (nid : String) (ts : List String) :
    ∀ db : DB, ∃ dt dn, ts.foldl (fun db t => add_note_tag db nid t) db =
      { db with
        tags := db.tags ++ dt, nextTagId := db.nextTagId + dt.length,
        noteTags := db.noteTags ++ dn } := by
  induction ts with
  | nil => exact fun db => ⟨[], [], by simp⟩
  | cons t ts ih =>
    intro db
    rw [List.foldl_cons]
    rcases add_note_tag_spec db nid t with ⟨dt1, dn1, h1⟩
    rcases ih (add_note_tag db nid t) with ⟨dt2, dn2, h2⟩
    refine ⟨dt1 ++ dt2, dn1 ++ dn2, ?_⟩
    rw [h2, h1]
    simp [List.append_assoc, List.length_append, Nat.add_assoc]

/-- Effect of the wikilink loop of `process_file`: appends exactly one link
row per wikilink and touches nothing else. -/
theorem linksFold_spec (nid : String) (ws : List (String × Option String)) :
    ∀ db : DB, ∃ dl : List LinkRow,
      ws.foldl (fun db tw => (add_link db nid tw.1 tw.2).2) db =
        { db with links := db.links ++ dl, nextLinkId := db.nextLinkId + dl.length } ∧
      dl.length = ws.length := by
  induction ws with
  | nil => exact fun db => ⟨[], by simp, rfl⟩
  | cons w ws ih =>
    intro db
    rw [List.foldl_cons]
    rcases ih (add_link db nid w.1 w.2).2 with ⟨dl, hdl, hlen⟩
    refine ⟨⟨db.nextLinkId, nid, none, w.1, "internal", w.2⟩ :: dl, ?_, by simp [hlen]⟩
    rw [hdl, add_link_spec]
    simp [List.append_assoc, Nat.add_assoc, Nat.add_comm 1 dl.length]

/-- The store component of `process_file` on a parsed file. -/
theorem process_file_ok_db (h : Hash) (vid : String) (acc : ScanStats × DB) (d : FileData) :
    (process_file h vid acc (FileEntry.ok d)).2 =
      d.wikilinks.foldl (fun db tw => (add_link db (nidOf h vid d) tw.1 tw.2).2)
        (d.tags.foldl (fun db t => add_note_tag db (nidOf h vid d) t)
          (add_note h vid d.relPath d.title d.content d.metadata acc.2).2) := rfl

/-- The statistics component of `process_file` on a parsed file. -/
theorem process_file_ok_stats (h : Hash) (vid : String) (acc : ScanStats × DB) (d : FileData) :
    (process_file h vid acc (FileEntry.ok d)).1 =
      { notesScanned := acc.1.notesScanned + 1,
        notesAdded := acc.1.notesAdded +
          (if (get_note_by_path h acc.2 vid d.relPath).isSome then 0 else 1),
        notesUpdated := acc.1.notesUpdated +
          (if (get_note_by_path h acc.2 vid d.relPath).isSome then 1 else 0),
        linksAdded := acc.1.linksAdded + d.wikilinks.length,
        tagsAdded := acc.1.tagsAdded + d.tags.length } := by
  unfold process_file
  by_cases hex : (get_note_by_path h acc.2 vid d.relPath).isSome = true <;>
    simp [hex]

/-- A tag association is saturated when the tag text resolves (by first
match) to a row whose id is already associated with the note. -/
def TagSatL (tags : List TagRow) (noteTags : List (String × Nat)) (nid tag : String) : Prop :=
  ∃ r : TagRow, tags.find? (fun x => x.tag == tag) = some r ∧ (nid, r.id) ∈ noteTags

/-- A `graph_metrics` row for the note id exists. -/
def GMSat (gm : List MetricsRow) (nid : String) : Prop :=
  (gm.any fun m => m.noteId == nid) = true

/-- Tag saturation is preserved by appending to both tables. -/
theorem tagSatL_mono {tg : List TagRow} {nt : List (String × Nat)} {nid t : String}
    (d1 : List TagRow) (d2 : List (String × Nat)) (hs : TagSatL tg nt nid t) :
    TagSatL (tg ++ d1) (nt ++ d2) nid t := by
  rcases hs with ⟨r, hf, hm⟩
  exact ⟨r, by rw [List.find?_append, hf]; rfl, List.mem_append_left _ hm⟩

/-- Metrics-row existence is preserved by appending. -/
theorem gmSat_mono {gm : List MetricsRow} {nid : String} (d : List MetricsRow)
    (hs : GMSat gm nid) : GMSat (gm ++ d) nid := by
  unfold GMSat at hs ⊢
  rw [List.any_append, hs, Bool.true_or]

/-- `add_note_tag` establishes tag saturation for the tag it writes. -/
theorem add_note_tag_establishes (db : DB) (nid t : String) :
    TagSatL (add_note_tag db nid t).tags (add_note_tag db nid t).noteTags nid t := by
  unfold add_note_tag add_tag
  cases hf : db.tags.find? (fun x => x.tag == t) with
  | some r =>
    simp only
    by_cases hp : (nid, r.id) ∈ db.noteTags
    · rw [if_pos hp]
      exact ⟨r, hf, hp⟩
    · rw [if_neg hp]
      exact ⟨r, hf, List.mem_append_right _ (List.mem_singleton.mpr rfl)⟩
  | none =>
    simp only
    have hf2 : ((db.tags ++ [(⟨db.nextTagId, t⟩ : TagRow)]).find? fun x => x.tag == t)
        = some (⟨db.nextTagId, t⟩ : TagRow) := by
      rw [List.find?_append, hf]
      simp
    by_cases hp : (nid, db.nextTagId) ∈ db.noteTags
    · rw [if_pos hp]
      exact ⟨⟨db.nextTagId, t⟩, hf2, hp⟩
    · rw [if_neg hp]
      exact ⟨⟨db.nextTagId, t⟩, hf2, List.mem_append_right _ (List.mem_singleton.mpr rfl)⟩

/-- On a saturated tag association `add_note_tag` is a no-op. -/
theorem add_note_tag_of_sat (db : DB) (nid t : String)
    (hs : TagSatL db.tags db.noteTags nid t) : add_note_tag db nid t = db := by
  rcases hs with ⟨r, hf, hm⟩
  unfold add_note_tag add_tag
  rw [hf]
  simp only
  rw [if_pos hm]

/-- On a saturated tag-set the whole tag loop is a no-op. -/
theorem tagsFold_of_sat (nid : String) (ts : List String) (db : DB)
    (hs : ∀ t ∈ ts, TagSatL db.tags db.noteTags nid t) :
    ts.foldl (fun db t => add_note_tag db nid t) db = db := by
  induction ts with
  | nil => rfl
  | cons t ts ih =>
    rw [List.foldl_cons, add_note_tag_of_sat db nid t (hs t (List.mem_cons_self t ts))]
    exact ih fun x hx => hs x (List.mem_cons_of_mem t hx)

/-- On a saturated note row (with its metrics row present) `add_note` is a
no-op on the store. -/
theorem add_note_of_sat (h : Hash) (vid : String) (d : FileData) (db : DB)
    (hns : NoteSat db.notes (noteRowOf h vid d)) (hgm : GMSat db.graphMetrics (nidOf h vid d)) :
    (add_note h vid d.relPath d.title d.content d.metadata db).2 = db := by
  rw [add_note_spec]
  simp only
  rw [upsert_of_noteSat _ _ hns,
    if_pos (show (db.graphMetrics.any fun m => m.noteId == nidOf h vid d) = true from hgm)]

/-- A saturated note row is found by `get_note_by_path`. -/
theorem get_note_by_path_isSome_of_sat (h : Hash) (vid : String) (d : FileData) (db : DB)
    (hns : NoteSat db.notes (noteRowOf h vid d)) :
    (get_note_by_path h db vid d.relPath).isSome = true := by
  unfold get_note_by_path get_note
  exact List.find?_isSome.mpr ⟨noteRowOf h vid d, hns.1, beq_iff_eq.mpr rfl⟩

/-- A failing file leaves the scan state untouched. -/
theorem process_file_failed (h : Hash) (vid : String) (acc : ScanStats × DB) :
    process_file h vid acc FileEntry.failed = acc := rfl

/-- Effect of `process_file` on the `notes` table: exactly the upsert of the
file's note row. -/
theorem process_file_ok_notes (h : Hash) (vid : String) (acc : ScanStats × DB) (d : FileData) :
    (process_file h vid acc (FileEntry.ok d)).2.notes
      = upsertNoteRow (noteRowOf h vid d) acc.2.notes := by
  rw [process_file_ok_db]
  rcases tagsFold_spec (nidOf h vid d) d.tags
    (add_note h vid d.relPath d.title d.content d.metadata acc.2).2 with ⟨dt, dn, ht⟩
  rcases linksFold_spec (nidOf h vid d) d.wikilinks
    (d.tags.foldl (fun db t => add_note_tag db (nidOf h vid d) t)
      (add_note h vid d.relPath d.title d.content d.metadata acc.2).2) with ⟨dl, hl, _⟩
  rw [hl, ht, add_note_spec]

/-- Effect of `process_file` on the `graph_metrics` table: the
`INSERT OR IGNORE` of the file's zero row. -/
theorem process_file_ok_gm (h : Hash) (vid : String) (acc : ScanStats × DB) (d : FileData) :
    (process_file h vid acc (FileEntry.ok d)).2.graphMetrics
      = (if (acc.2.graphMetrics.any fun m => m.noteId == nidOf h vid d) = true
         then acc.2.graphMetrics
         else acc.2.graphMetrics ++ [MetricsRow.init (nidOf h vid d)]) := by
  rw [process_file_ok_db]
  rcases tagsFold_spec (nidOf h vid d) d.tags
    (add_note h vid d.relPath d.title d.content d.metadata acc.2).2 with ⟨dt, dn, ht⟩
  rcases linksFold_spec (nidOf h vid d) d.wikilinks
    (d.tags.foldl (fun db t => add_note_tag db (nidOf h vid d) t)
      (add_note h vid d.relPath d.title d.content d.metadata acc.2).2) with ⟨dl, hl, _⟩
  rw [hl, ht, add_note_spec]

/-- `process_file` never touches the `vaults` table, the scan history, or
the scan counter. -/
theorem process_file_fixed (h : Hash) (vid : String) (acc : ScanStats × DB) (f : FileEntry) :
    (process_file h vid acc f).2.vaults = acc.2.vaults ∧
    (process_file h vid acc f).2.scans = acc.2.scans ∧
    (process_file h vid acc f).2.nextScanId = acc.2.nextScanId := by
  cases f with
  | failed => exact ⟨rfl, rfl, rfl⟩
  | ok d =>
    rw [process_file_ok_db]
    rcases tagsFold_spec (nidOf h vid d) d.tags
      (add_note h vid d.relPath d.title d.content d.metadata acc.2).2 with ⟨dt, dn, ht⟩
    rcases linksFold_spec (nidOf h vid d) d.wikilinks
      (d.tags.foldl (fun db t => add_note_tag db (nidOf h vid d) t)
        (add_note h vid d.relPath d.title d.content d.metadata acc.2).2) with ⟨dl, hl, _⟩
    rw [hl, ht, add_note_spec]
    exact ⟨rfl, rfl, rfl⟩

/-- The scan fold never touches the `vaults` table, the scan history, or
the scan counter. -/
theorem foldl_process_fixed (h : Hash) (vid : String) :
    ∀ (files : List FileEntry) (acc : ScanStats × DB),
      ((files.foldl (process_file h vid) acc).2).vaults = acc.2.vaults ∧
      ((files.foldl (process_file h vid) acc).2).scans = acc.2.scans ∧
      ((files.foldl (process_file h vid) acc).2).nextScanId = acc.2.nextScanId := by
  intro files
  induction files with
  | nil => exact fun acc => ⟨rfl, rfl, rfl⟩
  | cons f fs ih =>
    intro acc
    rw [List.foldl_cons]
    rcases ih (process_file h vid acc f) with ⟨h1, h2, h3⟩
    rcases process_file_fixed h vid acc f with ⟨g1, g2, g3⟩
    exact ⟨h1.trans g1, h2.trans g2, h3.trans g3⟩

/-- The tag, association and metrics tables only ever grow during a scan. -/
def ApxExt (db₁ db₂ : DB) : Prop :=
  (∃ d, db₂.tags = db₁.tags ++ d) ∧ (∃ d, db₂.noteTags = db₁.noteTags ++ d) ∧
  (∃ d, db₂.graphMetrics = db₁.graphMetrics ++ d)

/-- Reflexivity of `ApxExt`. -/
theorem apxExt_refl (db : DB) : ApxExt db db :=
  ⟨⟨[], by simp⟩, ⟨[], by simp⟩, ⟨[], by simp⟩⟩

/-- Transitivity of `ApxExt`. -/
theorem apxExt_trans {a b c : DB} (h1 : ApxExt a b) (h2 : ApxExt b c) : ApxExt a c := by
  rcases h1 with ⟨⟨t1, ht1⟩, ⟨n1, hn1⟩, ⟨g1, hg1⟩⟩
  rcases h2 with ⟨⟨t2, ht2⟩, ⟨n2, hn2⟩, ⟨g2, hg2⟩⟩
  exact ⟨⟨t1 ++ t2, by rw [ht2, ht1, List.append_assoc]⟩,
    ⟨n1 ++ n2, by rw [hn2, hn1, List.append_assoc]⟩,
    ⟨g1 ++ g2, by rw [hg2, hg1, List.append_assoc]⟩⟩

/-- One processed file only appends to the tag, association and metrics
tables. -/
theorem process_file_apxExt (h : Hash) (vid : String) (acc : ScanStats × DB) (f : FileEntry) :
    ApxExt acc.2 (process_file h vid acc f).2 := by
  cases f with
  | failed => exact apxExt_refl _
  | ok d =>
    rw [process_file_ok_db]
    rcases tagsFold_spec (nidOf h vid d) d.tags
      (add_note h vid d.relPath d.title d.content d.metadata acc.2).2 with ⟨dt, dn, ht⟩
    rcases linksFold_spec (nidOf h vid d) d.wikilinks
      (d.tags.foldl (fun db t => add_note_tag db (nidOf h vid d) t)
        (add_note h vid d.relPath d.title d.content d.metadata acc.2).2) with ⟨dl, hl, _⟩
    rw [hl, ht, add_note_spec]
    refine ⟨⟨dt, rfl⟩, ⟨dn, rfl⟩, ?_⟩
    by_cases hgm : (acc.2.graphMetrics.any fun m => m.noteId == nidOf h vid d) = true
    · exact ⟨[], by simp [hgm]⟩
    · exact ⟨[MetricsRow.init (nidOf h vid d)], by simp [hgm]⟩

/-- The scan fold only appends to the tag, association and metrics tables. -/
theorem foldl_process_apxExt (h : Hash) (vid : String) :
    ∀ (files : List FileEntry) (acc : ScanStats × DB),
      ApxExt acc.2 ((files.foldl (process_file h vid) acc).2) := by
  intro files
  induction files with
  | nil => exact fun acc => apxExt_refl _
  | cons f fs ih =>
    intro acc
    rw [List.foldl_cons]
    exact apxExt_trans (process_file_apxExt h vid acc f) (ih _)

/-- Processing files whose ids avoid `r.id` preserves the saturation of
`r`. -/
theorem foldl_preserves_noteSat (h : Hash) (vid : String) :
    ∀ (files : List FileEntry) (acc : ScanStats × DB) (r : NoteRow),
      (∀ d ∈ okData files, nidOf h vid d ≠ r.id) → NoteSat acc.2.notes r →
      NoteSat ((files.foldl (process_file h vid) acc).2).notes r := by
  intro files
  induction files with
  | nil => exact fun acc r _ hs => hs
  | cons f fs ih =>
    intro acc r hne hs
    rw [List.foldl_cons]
    cases f with
    | failed => exact ih _ r (fun d hd => hne d hd) hs
    | ok d =>
      refine ih _ r (fun d' hd' => hne d' (List.mem_cons_of_mem d hd')) ?_
      rw [process_file_ok_notes]
      exact noteSat_upsert_other _ _ _ (hne d (List.mem_cons_self d _)) hs

/-- After the first scan pass every processed file's note row is saturated
(provided the note ids of the scanned files are distinct). -/
theorem run1_noteSat (h : Hash) (vid : String) :
    ∀ (files : List FileEntry) (acc : ScanStats × DB),
      (((okData files).map (nidOf h vid)).Nodup) →
      ∀ d ∈ okData files,
        NoteSat ((files.foldl (process_file h vid) acc).2).notes (noteRowOf h vid d) := by
  intro files
  induction files with
  | nil => intro acc _ d hd; cases hd
  | cons f fs ih =>
    intro acc hnd d hd
    rw [List.foldl_cons]
    cases f with
    | failed => exact ih _ hnd d hd
    | ok d0 =>
      have hnd' : ((okData fs).map (nidOf h vid)).Nodup := (List.nodup_cons.mp hnd).2
      rcases List.mem_cons.mp hd with rfl | hd
      · refine foldl_preserves_noteSat h vid fs _ _ (fun d' hd' heq => ?_) ?_
        · exact (List.nodup_cons.mp hnd).1
            (List.mem_map.mpr ⟨d', hd', by simpa [noteRowOf] using heq⟩)
        · rw [process_file_ok_notes]
          exact noteSat_upsert_self _ _
      · exact ih _ hnd' d hd

/-- One processed file's metrics row exists right after its own step. -/
theorem process_file_ok_gmSat_self (h : Hash) (vid : String) (acc : ScanStats × DB) (d : FileData) :
    GMSat ((process_file h vid acc (FileEntry.ok d)).2).graphMetrics (nidOf h vid d) := by
  rw [GMSat, process_file_ok_gm]
  by_cases hgm : (acc.2.graphMetrics.any fun m => m.noteId == nidOf h vid d) = true
  · rw [if_pos hgm]; exact hgm
  · rw [if_neg hgm, List.any_append]
    simp [MetricsRow.init]

/-- After the first scan pass every processed file's metrics row exists. -/
theorem run1_gmSat (h : Hash) (vid : String) :
    ∀ (files : List FileEntry) (acc : ScanStats × DB),
      ∀ d ∈ okData files,
        GMSat ((files.foldl (process_file h vid) acc).2).graphMetrics (nidOf h vid d) := by
  intro files
  induction files with
  | nil => intro acc d hd; cases hd
  | cons f fs ih =>
    intro acc d hd
    rw [List.foldl_cons]
    cases f with
    | failed => exact ih _ d hd
    | ok d0 =>
      rcases List.mem_cons.mp hd with rfl | hd
      · rcases foldl_process_apxExt h vid fs (process_file h vid acc (FileEntry.ok d)) with
          ⟨_, _, ⟨dg, hdg⟩⟩
        rw [hdg]
        exact gmSat_mono _ (process_file_ok_gmSat_self h vid acc d)
      · exact ih _ d hd

/-- The tag loop saturates every tag it writes. -/
theorem tagsFold_establishes (nid : String) :
    ∀ (ts : List String) (db : DB), ∀ t ∈ ts,
      TagSatL (ts.foldl (fun db t => add_note_tag db nid t) db).tags
        (ts.foldl (fun db t => add_note_tag db nid t) db).noteTags nid t := by
  intro ts
  induction ts with
  | nil => intro db t ht; cases ht
  | cons t0 ts ih =>
    intro db t ht
    rw [List.foldl_cons]
    rcases List.mem_cons.mp ht with rfl | ht
    · rcases tagsFold_spec nid ts (add_note_tag db nid t) with ⟨dt, dn, hts⟩
      rw [hts]
      exact tagSatL_mono _ _ (add_note_tag_establishes db nid t)
    · exact ih _ t ht

/-- One processed file's tag associations are saturated right after its own
step. -/
theorem process_file_ok_tagSat_self (h : Hash) (vid : String) (acc : ScanStats × DB)
    (d : FileData) :
    ∀ t ∈ d.tags,
      TagSatL ((process_file h vid acc (FileEntry.ok d)).2).tags
        ((process_file h vid acc (FileEntry.ok d)).2).noteTags (nidOf h vid d) t := by
  intro t ht
  rw [process_file_ok_db]
  rcases linksFold_spec (nidOf h vid d) d.wikilinks
    (d.tags.foldl (fun db t => add_note_tag db (nidOf h vid d) t)
      (add_note h vid d.relPath d.title d.content d.metadata acc.2).2) with ⟨dl, hl, _⟩
  rw [hl]
  exact tagsFold_establishes (nidOf h vid d) d.tags _ t ht

/-- After the first scan pass every processed file's tag associations are
saturated. -/
theorem run1_tagSat (h : Hash) (vid : String) :
    ∀ (files : List FileEntry) (acc : ScanStats × DB),
      ∀ d ∈ okData files, ∀ t ∈ d.tags,
        TagSatL ((files.foldl (process_file h vid) acc).2).tags
          ((files.foldl (process_file h vid) acc).2).noteTags (nidOf h vid d) t := by
  intro files
  induction files with
  | nil => intro acc d hd; cases hd
  | cons f fs ih =>
    intro acc d hd t ht
    rw [List.foldl_cons]
    cases f with
    | failed => exact ih _ d hd t ht
    | ok d0 =>
      rcases List.mem_cons.mp hd with rfl | hd
      · rcases foldl_process_apxExt h vid fs (process_file h vid acc (FileEntry.ok d)) with
          ⟨⟨dt, hdt⟩, ⟨dn, hdn⟩, _⟩
        rw [hdt, hdn]
        exact tagSatL_mono _ _ (process_file_ok_tagSat_self h vid acc d t ht)
      · exact ih _ d hd t ht

/-- Rescanning saturated files: the scan fold leaves every table except
`links` (and the link counter) untouched, appends one link row per
wikilink, counts every file as updated (none as added), and the statistics
grow accordingly. -/
theorem run2_fold (h : Hash) (vid : String) :
    ∀ (files : List FileEntry) (acc : ScanStats × DB),
      (∀ d ∈ okData files, NoteSat acc.2.notes (noteRowOf h vid d)) →
      (∀ d ∈ okData files, GMSat acc.2.graphMetrics (nidOf h vid d)) →
      (∀ d ∈ okData files, ∀ t ∈ d.tags, TagSatL acc.2.tags acc.2.noteTags (nidOf h vid d) t) →
      ((files.foldl (process_file h vid) acc).2.notes = acc.2.notes ∧
       (files.foldl (process_file h vid) acc).2.graphMetrics = acc.2.graphMetrics ∧
       (files.foldl (process_file h vid) acc).2.tags = acc.2.tags ∧
       (files.foldl (process_file h vid) acc).2.nextTagId = acc.2.nextTagId ∧
       (files.foldl (process_file h vid) acc).2.noteTags = acc.2.noteTags ∧
       (files.foldl (process_file h vid) acc).2.links.length
         = acc.2.links.length + ((okData files).map (fun d => d.wikilinks.length)).sum ∧
       (files.foldl (process_file h vid) acc).1.notesAdded = acc.1.notesAdded ∧
       (files.foldl (process_file h vid) acc).1.notesScanned
         = acc.1.notesScanned + (okData files).length ∧
       (files.foldl (process_file h vid) acc).1.notesUpdated
         = acc.1.notesUpdated + (okData files).length) := by
  intro files
  induction files with
  | nil =>
    intro acc _ _ _
    exact ⟨rfl, rfl, rfl, rfl, rfl, by simp [okData], rfl, by simp [okData], by simp [okData]⟩
  | cons f fs ih =>
    intro acc hn hg ht
    rw [List.foldl_cons]
    cases f with
    | failed =>
      rw [process_file_failed]
      exact ih acc hn hg ht
    | ok d =>
      have hdmem : d ∈ okData (FileEntry.ok d :: fs) := List.mem_cons_self d (okData fs)
      have hnd0 := hn d hdmem
      have hsome := get_note_by_path_isSome_of_sat h vid d acc.2 hnd0
      rcases linksFold_spec (nidOf h vid d) d.wikilinks acc.2 with ⟨dl, hdl, hdllen⟩
      have h2 : (process_file h vid acc (FileEntry.ok d)).2
          = { acc.2 with
              links := acc.2.links ++ dl,
              nextLinkId := acc.2.nextLinkId + dl.length } := by
        rw [process_file_ok_db, add_note_of_sat h vid d acc.2 hnd0 (hg d hdmem),
          tagsFold_of_sat (nidOf h vid d) d.tags acc.2 (ht d hdmem), hdl]
      have hstats : (process_file h vid acc (FileEntry.ok d)).1
          = { notesScanned := acc.1.notesScanned + 1, notesAdded := acc.1.notesAdded,
              notesUpdated := acc.1.notesUpdated + 1,
              linksAdded := acc.1.linksAdded + d.wikilinks.length,
              tagsAdded := acc.1.tagsAdded + d.tags.length } := by
        rw [process_file_ok_stats]
        simp [hsome]
      have hn' : ∀ d' ∈ okData fs,
          NoteSat (process_file h vid acc (FileEntry.ok d)).2.notes (noteRowOf h vid d') := by
        intro d' hd'
        rw [h2]
        exact hn d' (List.mem_cons_of_mem d hd')
      have hg' : ∀ d' ∈ okData fs,
          GMSat (process_file h vid acc (FileEntry.ok d)).2.graphMetrics (nidOf h vid d') := by
        intro d' hd'
        rw [h2]
        exact hg d' (List.mem_cons_of_mem d hd')
      have ht' : ∀ d' ∈ okData fs, ∀ t ∈ d'.tags,
          TagSatL (process_file h vid acc (FileEntry.ok d)).2.tags
            (process_file h vid acc (FileEntry.ok d)).2.noteTags (nidOf h vid d') t := by
        intro d' hd' t htt
        rw [h2]
        exact ht d' (List.mem_cons_of_mem d hd') t htt
      rcases ih (process_file h vid acc (FileEntry.ok d)) hn' hg' ht' with
        ⟨e1, e2, e3, e4, e5, e6, e7, e8, e9⟩
      refine ⟨?_, ?_, ?_, ?_, ?_, ?_, ?_, ?_, ?_⟩
      · rw [e1, h2]
      · rw [e2, h2]
      · rw [e3, h2]
      · rw [e4, h2]
      · rw [e5, h2]
      · rw [e6, h2]
        show (acc.2.links ++ dl).length + _ = _
        rw [List.length_append, hdllen]
        show _ = acc.2.links.length + ((d :: okData fs).map fun d => d.wikilinks.length).sum
        rw [List.map_cons, List.sum_cons]
        omega
      · rw [e7, hstats]
      · rw [e8, hstats]
        show acc.1.notesScanned + 1 + (okData fs).length
          = acc.1.notesScanned + (d :: okData fs).length
        rw [List.length_cons]
        omega
      · rw [e9, hstats]
        show acc.1.notesUpdated + 1 + (okData fs).length
          = acc.1.notesUpdated + (d :: okData fs).length
        rw [List.length_cons]
        omega

/-- C1 amended: rescanning an unchanged vault (same parsed files, distinct
note ids) leaves the Note rows, Tag rows, note-tag associations,
graph-metrics rows and vault rows literally unchanged, appends exactly one
scan-history record, and reports `notesAdded = 0` with every file counted
as updated — but the `links` table grows by the full wikilink count of the
vault on every rescan, because `add_link` is a plain `INSERT` and a note's
previous outgoing references are never replaced. -/
theorem rescan_changes_only_links_and_history (h : Hash) (vaultPath vaultName : String)
    (files : List FileEntry) (db : DB)
    (hnd : ((okData files).map (nidOf h (h.genId vaultPath))).Nodup) :
    ((scan_vault h vaultPath vaultName files
        (scan_vault h vaultPath vaultName files db).2).2.notes
      = (scan_vault h vaultPath vaultName files db).2.notes) ∧
    ((scan_vault h vaultPath vaultName files
        (scan_vault h vaultPath vaultName files db).2).2.vaults
      = (scan_vault h vaultPath vaultName files db).2.vaults) ∧
    ((scan_vault h vaultPath vaultName files
        (scan_vault h vaultPath vaultName files db).2).2.tags
      = (scan_vault h vaultPath vaultName files db).2.tags) ∧
    ((scan_vault h vaultPath vaultName files
        (scan_vault h vaultPath vaultName files db).2).2.noteTags
      = (scan_vault h vaultPath vaultName files db).2.noteTags) ∧
    ((scan_vault h vaultPath vaultName files
        (scan_vault h vaultPath vaultName files db).2).2.graphMetrics
      = (scan_vault h vaultPath vaultName files db).2.graphMetrics) ∧
    ((scan_vault h vaultPath vaultName files
        (scan_vault h vaultPath vaultName files db).2).2.scans.length
      = (scan_vault h vaultPath vaultName files db).2.scans.length + 1) ∧
    ((scan_vault h vaultPath vaultName files
        (scan_vault h vaultPath vaultName files db).2).2.links.length
      = (scan_vault h vaultPath vaultName files db).2.links.length
        + ((okData files).map (fun d => d.wikilinks.length)).sum) ∧
    ((scan_vault h vaultPath vaultName files
        (scan_vault h vaultPath vaultName files db).2).1.notesAdded = 0) ∧
    ((scan_vault h vaultPath vaultName files
        (scan_vault h vaultPath vaultName files db).2).1.notesScanned
      = (okData files).length) ∧
    ((scan_vault h vaultPath vaultName files
        (scan_vault h vaultPath vaultName files db).2).1.notesUpdated
      = (okData files).length) := by
  have key := run2_fold h (h.genId vaultPath) files
    (ScanStats.zero,
      (start_scan (add_vault h vaultName vaultPath
        (scan_vault h vaultPath vaultName files db).2).2 (h.genId vaultPath)).2)
    (fun d hd => run1_noteSat h (h.genId vaultPath) files
      (ScanStats.zero,
        (start_scan (add_vault h vaultName vaultPath db).2 (h.genId vaultPath)).2) hnd d hd)
    (fun d hd => run1_gmSat h (h.genId vaultPath) files
      (ScanStats.zero,
        (start_scan (add_vault h vaultName vaultPath db).2 (h.genId vaultPath)).2) d hd)
    (fun d hd t ht => run1_tagSat h (h.genId vaultPath) files
      (ScanStats.zero,
        (start_scan (add_vault h vaultName vaultPath db).2 (h.genId vaultPath)).2) d hd t ht)
  rcases key with ⟨f1, f2, f3, _, f5, f6, f7, f8, f9⟩
  have hfix1 := foldl_process_fixed h (h.genId vaultPath) files
    (ScanStats.zero,
      (start_scan (add_vault h vaultName vaultPath db).2 (h.genId vaultPath)).2)
  have hfix2 := foldl_process_fixed h (h.genId vaultPath) files
    (ScanStats.zero,
      (start_scan (add_vault h vaultName vaultPath
        (scan_vault h vaultPath vaultName files db).2).2 (h.genId vaultPath)).2)
  refine ⟨f1, ?_, f3, f5, f2, ?_, f6, f7, ?_, ?_⟩
  · -- vaults: the second upsert of the same vault row is a no-op
    have hv1 : (scan_vault h vaultPath vaultName files db).2.vaults
        = upsertVaultRow ⟨h.genId vaultPath, vaultName, vaultPath⟩ db.vaults := hfix1.1
    have hv2 : (scan_vault h vaultPath vaultName files
        (scan_vault h vaultPath vaultName files db).2).2.vaults
        = upsertVaultRow ⟨h.genId vaultPath, vaultName, vaultPath⟩
            (scan_vault h vaultPath vaultName files db).2.vaults := hfix2.1
    rw [hv2, hv1, upsertVaultRow_idem]
  · -- scan history grows by exactly one record
    have hs2 : (scan_vault h vaultPath vaultName files
        (scan_vault h vaultPath vaultName files db).2).2.scans.length
        = ((files.foldl (process_file h (h.genId vaultPath))
            (ScanStats.zero,
              (start_scan (add_vault h vaultName vaultPath
                (scan_vault h vaultPath vaultName files db).2).2 (h.genId vaultPath)).2)).2.scans).length := by
      exact List.length_map _ _
    rw [hs2, hfix2.2.1]
    exact List.length_append _ _
  · exact f8.trans (Nat.zero_add _)
  · exact f9.trans (Nat.zero_add _)

/-- C1 witness: scanning one concrete file twice with the identity hash —
notes identical, the links table grown by the file's single wikilink, and
the second run reporting zero added notes. -/
theorem rescan_changes_only_links_and_history_witness :
    ((okData [FileEntry.ok fileA]).map (nidOf idHash (idHash.genId "/v"))).Nodup ∧
    ((scan_vault idHash "/v" "v" [FileEntry.ok fileA]
        (scan_vault idHash "/v" "v" [FileEntry.ok fileA] DB.empty).2).2.notes
      = (scan_vault idHash "/v" "v" [FileEntry.ok fileA] DB.empty).2.notes) ∧
    ((scan_vault idHash "/v" "v" [FileEntry.ok fileA]
        (scan_vault idHash "/v" "v" [FileEntry.ok fileA] DB.empty).2).2.links.length
      = (scan_vault idHash "/v" "v" [FileEntry.ok fileA] DB.empty).2.links.length
        + ((okData [FileEntry.ok fileA]).map (fun d => d.wikilinks.length)).sum) ∧
    ((scan_vault idHash "/v" "v" [FileEntry.ok fileA]
        (scan_vault idHash "/v" "v" [FileEntry.ok fileA] DB.empty).2).1.notesAdded = 0) :=
  ⟨by decide,
    (rescan_changes_only_links_and_history idHash "/v" "v" [FileEntry.ok fileA] DB.empty
      (by decide)).1,
    (rescan_changes_only_links_and_history idHash "/v" "v" [FileEntry.ok fileA] DB.empty
      (by decide)).2.2.2.2.2.2.1,
    (rescan_changes_only_links_and_history idHash "/v" "v" [FileEntry.ok fileA] DB.empty
      (by decide)).2.2.2.2.2.2.2.1⟩

end ObsCli
